import Mathlib

/-!
The claim-grouping and duplicate-marking pipeline of cfg-audit.

A shallow embedding of `main.go`: the `Claim` record, the chart mapping
(`map[string][]Claim`), the record parser and the three stages that follow it
(`removeSingleClaimRecords`, `removeSumZeroClaimRecords`,
`markDuplicatePayments`).

Conventions of the embedding

* A Go slice is a `List`; a Go `map[string][]Claim` is an association list with
  pairwise distinct keys (`KeysNodup`), read with `mapIndex` and written with
  `mapAssign`.
* `for k, v := range m` visits the entries of `m` in an order the Go runtime
  chooses afresh at every `range` statement.  The order is supplied by
  `GoEnv.mapRange`, indexed by the `range` statement that asks for it; the only
  thing known about it is that it is a permutation of the entries.
* `sort.Slice` belongs to the Go standard library.  It is supplied by
  `GoEnv.sortSlice` and specified by its documented contract (the result is a
  permutation of the input, ordered by `less`; it is not guaranteed stable):
  `GoEnv.Valid`.  `goSortSlice` transcribes the library implementation
  (pattern-defeating quicksort, insertion sort up to twelve elements) so that
  the program can be run on concrete inputs (`goEnv`); `insertionEnv` is a
  second runtime, proved to meet the contract.
* `int64` values are integers; the one place where arithmetic can leave the
  64-bit range, the running sum of `removeSumZeroClaimRecords`, wraps with
  `wrapInt64`.
* A panic is the value `none`.
-/

namespace CfgAudit

/-! ## Data model -/

/-- The calendar date carried by a `time.Time` that `time.Parse` produced from
the layout `1/2/2006`: midnight UTC of the given day. -/
structure Time where
  year : Nat
  month : Nat
  day : Nat
deriving DecidableEq

/-- The method `time.Time.Before` on two such dates. -/
def Time.Before (t u : Time) : Bool :=
  decide (t.year < u.year ∨ (t.year = u.year ∧
    (t.month < u.month ∨ (t.month = u.month ∧ t.day < u.day))))

/-- The record `Claim` of `main.go`, field for field. -/
structure Claim where
  ChartNumber : String
  CaseNumber : String
  ClaimNo : String
  DateOfService : Time
  DateOfServiceString : String
  InsurancePaid : Int
  InsurancePaidString : String
  InsuranceName : String
  AdjustmentAmount : Int
  AdjustmentAmountString : String
  Facility : String
  Sheet : String
  Duplicate : Bool
deriving DecidableEq

/-- Two's-complement wrap-around of `int64` arithmetic. -/
def wrapInt64 (x : Int) : Int := (x + 2 ^ 63) % 2 ^ 64 - 2 ^ 63

/-- The Go type `map[string][]Claim`. -/
abbrev ChartMap := List (String × List Claim)

/-- The keys of a map are pairwise distinct. -/
def KeysNodup (m : ChartMap) : Prop := (m.map Prod.fst).Nodup

instance decidableKeysNodup (m : ChartMap) : Decidable (KeysNodup m) :=
  inferInstanceAs (Decidable (m.map Prod.fst).Nodup)

/-- The map read `m[k]`; `none` stands for the absent key (Go yields `nil`). -/
def mapIndex (m : ChartMap) (k : String) : Option (List Claim) :=
  match m with
  | [] => none
  | e :: rest => if e.1 = k then some e.2 else mapIndex rest k

/-- The map write `m[k] = v`: an existing entry is replaced where it stands, a
new key is added. -/
def mapAssign (m : ChartMap) (k : String) (v : List Claim) : ChartMap :=
  match m with
  | [] => [(k, v)]
  | e :: rest => if e.1 = k then (k, v) :: rest else e :: mapAssign rest k v

/-! ## The Go runtime: map iteration order and `sort.Slice` -/

/-- The `range` statements over maps in `main.go`. -/
inductive RangeSite where
  | removeSingle
  | removeSumZero
  | markCharts
  | markSort (chart : String)
  | markCombine (chart : String)
deriving DecidableEq

/-- What the program takes from the Go runtime and standard library. -/
structure GoEnv where
  /-- The call `sort.Slice(x, less)`, with `less` read on the elements. -/
  sortSlice : (Claim → Claim → Bool) → List Claim → List Claim
  /-- The order in which a `range` statement visits the entries of a map. -/
  mapRange : RangeSite → ChartMap → ChartMap

/-- The comparison handed to `sort.Slice` is a strict weak ordering. -/
structure StrictWeak {α : Type} (less : α → α → Bool) : Prop where
  irrefl : ∀ a, less a a = false
  trans : ∀ a b c, less a b = true → less b c = true → less a c = true
  incomp : ∀ a b c, less a b = false → less b c = false → less a c = false

/-- The documented behaviour of the runtime: `sort.Slice` permutes its argument
into `less`-order, and `range` visits every entry exactly once. -/
structure GoEnv.Valid (env : GoEnv) : Prop where
  sort_perm : ∀ less xs, (env.sortSlice less xs).Perm xs
  sort_sorted : ∀ less, StrictWeak less → ∀ xs,
    (env.sortSlice less xs).Pairwise (fun a b => less b a = false)
  range_perm : ∀ site m, (env.mapRange site m).Perm m

/-! ## `sort.Slice` as the Go standard library implements it

The functions of `sort/zsortfunc.go` (Go 1.19 and later): pattern-defeating
quicksort, which hands slices of at most twelve elements to insertion sort and
falls back on heap sort after too many unbalanced partitions.  A slice is a
list, `data.Less` and `data.Swap` are `lessAt` and `swapAt`, and every loop
without a fixed count carries a `fuel` that bounds its rounds. -/

section GoSort
variable {α : Type}

/-- The method `data.Swap(i, j)` of the slice being sorted. -/
def swapAt (data : List α) (i j : Nat) : List α :=
  match data[i]?, data[j]? with
  | some x, some y => (data.set i y).set j x
  | _, _ => data

/-- The method `data.Less(i, j)`: `less` on the elements now at `i` and `j`. -/
def lessAt (less : α → α → Bool) (data : List α) (i j : Nat) : Bool :=
  match data[i]?, data[j]? with
  | some x, some y => less x y
  | _, _ => false

/-- The inner loop of `insertionSort_func`:
`for j := i; j > a && data.Less(j, j-1); j-- { data.Swap(j, j-1) }`. -/
def insertionShift (less : α → α → Bool) (a : Nat) : Nat → List α → List α
  | 0, data => data
  | j + 1, data =>
    if a < j + 1 && lessAt less data (j + 1) j
    then insertionShift less a j (swapAt data (j + 1) j) else data

/-- The function `insertionSort_func`: insertion sort of `data[a:b]`. -/
def insertionSort_func (less : α → α → Bool) (data : List α) (a b : Nat) : List α :=
  (List.range' (a + 1) (b - (a + 1))).foldl (fun d i => insertionShift less a i d) data

/-- Insertion of `x` at the right end of a sorted run, the run given last
element first: `x` moves left past every element it is `less` than. -/
def insertRev (less : α → α → Bool) (x : α) : List α → List α
  | [] => [x]
  | y :: ys => if less x y then y :: insertRev less x ys else x :: y :: ys

/-- Insertion sort on lists: what `insertionSort_func` computes on a whole slice
(`insertionSort_func_whole`). -/
def insertionSortList (less : α → α → Bool) (xs : List α) : List α :=
  (xs.foldl (fun rp x => insertRev less x rp) []).reverse

/-- The function `siftDown_func` on `data[lo:hi]` offset by `first`; `root` runs
down the heap, at most `fuel` levels. -/
def siftDown_func (less : α → α → Bool) (hi first : Nat) : Nat → Nat → List α → List α
  | 0, _, data => data
  | fuel + 1, root, data =>
    let child := 2 * root + 1
    if child ≥ hi then data
    else
      let child :=
        if child + 1 < hi && lessAt less data (first + child) (first + child + 1)
        then child + 1 else child
      if !lessAt less data (first + root) (first + child) then data
      else siftDown_func less hi first fuel child (swapAt data (first + root) (first + child))

/-- The function `heapSort_func` on `data[a:b]`. -/
def heapSort_func (less : α → α → Bool) (data : List α) (a b : Nat) : List α :=
  let first := a
  let hi := b - a
  let built := (List.range ((hi - 1) / 2 + 1)).reverse.foldl
    (fun d i => siftDown_func less hi first hi i d) data
  (List.range hi).reverse.foldl
    (fun d i => siftDown_func less i first hi 0 (swapAt d first (first + i))) built

/-- The type `sortedHint`. -/
inductive SortedHint where
  | unknownHint
  | increasingHint
  | decreasingHint
deriving DecidableEq

/-- The function `order2_func`; the swap counter is threaded through. -/
def order2_func (less : α → α → Bool) (data : List α) (a b swaps : Nat) : Nat × Nat × Nat :=
  if lessAt less data b a then (b, a, swaps + 1) else (a, b, swaps)

/-- The function `median_func`: the index of the median of three. -/
def median_func (less : α → α → Bool) (data : List α) (a b c swaps : Nat) : Nat × Nat :=
  let (a, b, swaps) := order2_func less data a b swaps
  let (b, c, swaps) := order2_func less data b c swaps
  let (_, b, swaps) := order2_func less data a b swaps
  let _ := c
  (b, swaps)

/-- The function `medianAdjacent_func`. -/
def medianAdjacent_func (less : α → α → Bool) (data : List α) (a swaps : Nat) : Nat × Nat :=
  median_func less data (a - 1) a (a + 1) swaps

/-- The function `choosePivot_func`. -/
def choosePivot_func (less : α → α → Bool) (data : List α) (a b : Nat) : Nat × SortedHint :=
  let l := b - a
  let swaps := 0
  let i := a + l / 4 * 1
  let j := a + l / 4 * 2
  let k := a + l / 4 * 3
  let (j, swaps) :=
    if l ≥ 8 then
      let (i, j, k, swaps) :=
        if l ≥ 50 then
          let (i, swaps) := medianAdjacent_func less data i swaps
          let (j, swaps) := medianAdjacent_func less data j swaps
          let (k, swaps) := medianAdjacent_func less data k swaps
          (i, j, k, swaps)
        else (i, j, k, swaps)
      median_func less data i j k swaps
    else (j, swaps)
  if swaps = 0 then (j, .increasingHint)
  else if swaps = 4 * 3 then (j, .decreasingHint)
  else (j, .unknownHint)

/-- The function `reverseRange_func`, its loop `for i < j` run at most `fuel` times. -/
def reverseLoop : Nat → Nat → Nat → List α → List α
  | 0, _, _, data => data
  | fuel + 1, i, j, data =>
    if i < j then reverseLoop fuel (i + 1) (j - 1) (swapAt data i j) else data

/-- The function `reverseRange_func`. -/
def reverseRange_func (data : List α) (a b : Nat) : List α :=
  reverseLoop (b - a) a (b - 1) data

/-- The scan `for i <= j && data.Less(i, a) { i++ }` of `partition_func`. -/
def scanLess (less : α → α → Bool) (data : List α) (a j : Nat) : Nat → Nat → Nat
  | 0, i => i
  | fuel + 1, i =>
    if i ≤ j && lessAt less data i a then scanLess less data a j fuel (i + 1) else i

/-- The scan `for i <= j && !data.Less(j, a) { j-- }` of `partition_func`. -/
def scanNotLess (less : α → α → Bool) (data : List α) (a i : Nat) : Nat → Nat
  | 0 => 0
  | j + 1 =>
    if i ≤ j + 1 && !lessAt less data (j + 1) a then scanNotLess less data a i j else j + 1

/-- The main loop of `partition_func`; returns the slice and the final `j`. -/
def partitionLoop (less : α → α → Bool) (a : Nat) : Nat → Nat → Nat → List α → List α × Nat
  | 0, _, j, data => (data, j)
  | fuel + 1, i, j, data =>
    let i := scanLess less data a j (j + 1 - i) i
    let j := scanNotLess less data a i j
    if i > j then (data, j)
    else partitionLoop less a fuel (i + 1) (j - 1) (swapAt data i j)

/-- The function `partition_func`: the slice, the new pivot index and
`alreadyPartitioned`. -/
def partition_func (less : α → α → Bool) (data : List α) (a b pivot : Nat) :
    List α × Nat × Bool :=
  let data := swapAt data a pivot
  let i := a + 1
  let j := b - 1
  let i := scanLess less data a j (j + 1 - i) i
  let j := scanNotLess less data a i j
  if i > j then (swapAt data j a, j, true)
  else
    let data := swapAt data i j
    let (data, j) := partitionLoop less a (b - a) (i + 1) (j - 1) data
    (swapAt data j a, j, false)

/-- The scan `for i <= j && !data.Less(a, i) { i++ }` of `partitionEqual_func`. -/
def scanNotGreater (less : α → α → Bool) (data : List α) (a j : Nat) : Nat → Nat → Nat
  | 0, i => i
  | fuel + 1, i =>
    if i ≤ j && !lessAt less data a i then scanNotGreater less data a j fuel (i + 1) else i

/-- The scan `for i <= j && data.Less(a, j) { j-- }` of `partitionEqual_func`. -/
def scanGreater (less : α → α → Bool) (data : List α) (a i : Nat) : Nat → Nat
  | 0 => 0
  | j + 1 =>
    if i ≤ j + 1 && lessAt less data a (j + 1) then scanGreater less data a i j else j + 1

/-- The loop of `partitionEqual_func`; returns the slice and the final `i`. -/
def partitionEqualLoop (less : α → α → Bool) (a : Nat) :
    Nat → Nat → Nat → List α → List α × Nat
  | 0, i, _, data => (data, i)
  | fuel + 1, i, j, data =>
    let i := scanNotGreater less data a j (j + 1 - i) i
    let j := scanGreater less data a i j
    if i > j then (data, i)
    else partitionEqualLoop less a fuel (i + 1) (j - 1) (swapAt data i j)

/-- The function `partitionEqual_func`. -/
def partitionEqual_func (less : α → α → Bool) (data : List α) (a b pivot : Nat) :
    List α × Nat :=
  partitionEqualLoop less a (b - a) (a + 1) (b - 1) (swapAt data a pivot)

/-- Shifting the smaller element to the left in `partialInsertionSort_func`:
`for j := i - 1; j >= 1; j--`. -/
def shiftSmaller (less : α → α → Bool) : Nat → List α → List α
  | 0, data => data
  | j + 1, data =>
    if !lessAt less data (j + 1) j then data
    else shiftSmaller less j (swapAt data (j + 1) j)

/-- Shifting the greater element to the right in `partialInsertionSort_func`:
`for j := i + 1; j < b; j++`. -/
def shiftGreater (less : α → α → Bool) (b : Nat) : Nat → Nat → List α → List α
  | 0, _, data => data
  | fuel + 1, j, data =>
    if j < b then
      if !lessAt less data j (j - 1) then data
      else shiftGreater less b fuel (j + 1) (swapAt data j (j - 1))
    else data

/-- The scan `for i < b && !data.Less(i, i-1) { i++ }`. -/
def scanOrdered (less : α → α → Bool) (data : List α) (b : Nat) : Nat → Nat → Nat
  | 0, i => i
  | fuel + 1, i =>
    if i < b && !lessAt less data i (i - 1) then scanOrdered less data b fuel (i + 1) else i

/-- The loop of `partialInsertionSort_func`, `steps` rounds left. -/
def partialInsertionLoop (less : α → α → Bool) (a b : Nat) :
    Nat → Nat → List α → List α × Bool
  | 0, _, data => (data, false)
  | steps + 1, i, data =>
    let i := scanOrdered less data b (b - i) i
    if i = b then (data, true)
    else if b - a < 50 then (data, false)
    else
      let data := swapAt data i (i - 1)
      let data := if i - a ≥ 2 then shiftSmaller less (i - 1) data else data
      let data := if b - i ≥ 2 then shiftGreater less b (b - (i + 1)) (i + 1) data else data
      partialInsertionLoop less a b steps i data

/-- The function `partialInsertionSort_func`: `maxSteps = 5`,
`shortestShifting = 50`. -/
def partialInsertionSort_func (less : α → α → Bool) (data : List α) (a b : Nat) :
    List α × Bool :=
  partialInsertionLoop less a b 5 (a + 1) data

/-- The function `bits.Len`. -/
def bitsLen : Nat → Nat → Nat
  | 0, _ => 0
  | fuel + 1, x => if x = 0 then 0 else 1 + bitsLen fuel (x / 2)

/-- The method `Next` of `xorshift` on a `uint64` state. -/
def xorshiftNext (r : Nat) : Nat :=
  let r := r ^^^ ((r <<< 13) % 2 ^ 64)
  let r := r ^^^ (r >>> 7)
  r ^^^ ((r <<< 17) % 2 ^ 64)

/-- The function `breakPatterns_func`: in a slice of at least eight elements the
three elements at `idx`, `idx + 1` and `idx + 2`, around the middle, are swapped
with elements at positions drawn from `xorshift`. -/
def breakPatterns_func (data : List α) (a b : Nat) : List α :=
  let length := b - a
  if length ≥ 8 then
    let modulus := 2 ^ bitsLen 64 length
    let idx := a + (length / 4) * 2 - 1
    let r1 := xorshiftNext length
    let r2 := xorshiftNext r1
    let r3 := xorshiftNext r2
    let other := fun (r : Nat) =>
      let o := r % modulus
      if o ≥ length then o - length else o
    let data := swapAt data (idx + 0) (a + other r1)
    let data := swapAt data (idx + 1) (a + other r2)
    swapAt data (idx + 2) (a + other r3)
  else data

/-- The function `pdqsort_func` on `data[a:b]`; its `for` loop and its recursive
calls go at most `fuel` deep. -/
def pdqsort_func (less : α → α → Bool) :
    Nat → List α → Nat → Nat → Nat → Bool → Bool → List α
  | 0, data, _, _, _, _, _ => data
  | fuel + 1, data, a, b, limit, wasBalanced, wasPartitioned =>
    let length := b - a
    if length ≤ 12 then insertionSort_func less data a b
    else if limit = 0 then heapSort_func less data a b
    else
      let data := if !wasBalanced then breakPatterns_func data a b else data
      let limit := if !wasBalanced then limit - 1 else limit
      let (pivot, hint) := choosePivot_func less data a b
      let (data, pivot, hint) :=
        if hint = .decreasingHint
        then (reverseRange_func data a b, (b - 1) - (pivot - a), SortedHint.increasingHint)
        else (data, pivot, hint)
      let (data, done) :=
        if wasBalanced && wasPartitioned && hint = .increasingHint
        then partialInsertionSort_func less data a b else (data, false)
      if done then data
      else if a > 0 && !lessAt less data (a - 1) pivot then
        let (data, mid) := partitionEqual_func less data a b pivot
        pdqsort_func less fuel data mid b limit wasBalanced wasPartitioned
      else
        let (data, mid, alreadyPartitioned) := partition_func less data a b pivot
        let leftLen := mid - a
        let rightLen := b - mid
        let balanceThreshold := length / 8
        if leftLen < rightLen then
          let data := pdqsort_func less fuel data a mid limit true true
          pdqsort_func less fuel data (mid + 1) b limit
            (decide (leftLen ≥ balanceThreshold)) alreadyPartitioned
        else
          let data := pdqsort_func less fuel data (mid + 1) b limit true true
          pdqsort_func less fuel data a mid limit
            (decide (rightLen ≥ balanceThreshold)) alreadyPartitioned

/-- The function `sort.Slice(x, less)`. -/
def goSortSlice (less : α → α → Bool) (x : List α) : List α :=
  let length := x.length
  let limit := bitsLen 64 length
  pdqsort_func less (length + 1) x 0 length limit true true

end GoSort

/-! ## Stage 2: `removeSingleClaimRecords` -/

/-- The function `removeSingleClaimRecords`. -/
def removeSingleClaimRecords (env : GoEnv) (chartMap : ChartMap) : ChartMap :=
  (env.mapRange .removeSingle chartMap).foldl
    (fun chartsWithMultipleClaims e =>
      if e.2.length > 1 then mapAssign chartsWithMultipleClaims e.1 e.2
      else chartsWithMultipleClaims) []

/-! ## Stage 3: `removeSumZeroClaimRecords` -/

/-- The inner loop of `removeSumZeroClaimRecords`: `sumPaid += claim.InsurancePaid`
over the claims, in `int64`. -/
def sumPaid (claims : List Claim) : Int :=
  claims.foldl (fun s claim => wrapInt64 (s + claim.InsurancePaid)) 0

/-- The function `removeSumZeroClaimRecords`. -/
def removeSumZeroClaimRecords (env : GoEnv) (chartMap : ChartMap) : ChartMap :=
  (env.mapRange .removeSumZero chartMap).foldl
    (fun charts e => if sumPaid e.2 > 0 then mapAssign charts e.1 e.2 else charts) []

/-! ## Stage 4: `markDuplicatePayments` -/

/-- The comparison of the sort in `markDuplicatePayments`:
`dosClaims[i].InsurancePaid > dosClaims[j].InsurancePaid`. -/
def paidGreater (x y : Claim) : Bool := decide (x.InsurancePaid > y.InsurancePaid)

/-- One round of the first inner loop of `markDuplicatePayments`: an empty slice
is stored under a `DateOfServiceString` not seen before, then the claim is
appended to the slice of its date. -/
def groupStep (dosMap : ChartMap) (claim : Claim) : ChartMap :=
  let dosMap1 :=
    if (mapIndex dosMap claim.DateOfServiceString).isNone
    then mapAssign dosMap claim.DateOfServiceString [] else dosMap
  mapAssign dosMap1 claim.DateOfServiceString
    ((mapIndex dosMap1 claim.DateOfServiceString).getD [] ++ [claim])

/-- The first inner loop of `markDuplicatePayments` over the claims of one chart. -/
def groupByDate (claims : List Claim) : ChartMap :=
  claims.foldl groupStep []

/-- The second inner loop: every slice of `dosMap` is sorted in place. -/
def sortGroups (env : GoEnv) (key : String) (dosMap : ChartMap) : ChartMap :=
  (env.mapRange (.markSort key) dosMap).foldl
    (fun m e => mapAssign m e.1 (env.sortSlice paidGreater e.2)) dosMap

/-- The loop `for index := range dosClaims`, entered at `index`: every claim at
a position greater than zero gets `Duplicate = true`. -/
def markFrom (index : Nat) : List Claim → List Claim
  | [] => []
  | c :: cs =>
    (if index > 0 then { c with Duplicate := true } else c) :: markFrom (index + 1) cs

/-- The third inner loop: the slices of `dosMap` are marked and appended to
`allClaims` in the order `range` visits them. -/
def combineGroups (env : GoEnv) (key : String) (dosMap : ChartMap) : List Claim :=
  (env.mapRange (.markCombine key) dosMap).foldl
    (fun allClaims e => allClaims ++ markFrom 0 e.2) []

/-- The body of the outer loop of `markDuplicatePayments` for one chart. -/
def markChart (env : GoEnv) (key : String) (claims : List Claim) : List Claim :=
  combineGroups env key (sortGroups env key (groupByDate claims))

/-- The function `markDuplicatePayments`. -/
def markDuplicatePayments (env : GoEnv) (chartMap : ChartMap) : ChartMap :=
  (env.mapRange .markCharts chartMap).foldl
    (fun charts e => mapAssign charts e.1 (markChart env e.1 e.2)) []

/-! ## Stage 1: `moneyStringToInt`, `parseDate`, `formatDateString`, `parseRecords` -/

/-- The byte test `'0' <= c && c <= '9'`. -/
def isDigit (c : Char) : Bool := decide ('0'.toNat ≤ c.toNat ∧ c.toNat ≤ '9'.toNat)

/-- The value `c - '0'` of a digit. -/
def digitVal (c : Char) : Nat := c.toNat - '0'.toNat

/-- The number a digit string denotes in base 10, most significant digit first. -/
def decimalValue (digits : List Char) : Nat :=
  digits.foldl (fun n c => n * 10 + digitVal c) 0

/-- The call `strconv.ParseInt(s, 10, 32)`: an optional sign, then one or more
decimal digits whose value fits a signed 32-bit integer; `none` is an error. -/
def parseInt32 (s : List Char) : Option Int :=
  match s with
  | [] => none
  | c :: rest =>
    let neg := decide (c = '-')
    let digits := if c = '+' ∨ c = '-' then rest else s
    if digits.isEmpty || !digits.all isDigit then none
    else
      let un := decimalValue digits
      if !neg && un ≥ 2 ^ 31 then none
      else if neg && un > 2 ^ 31 then none
      else some (if neg then - (un : Int) else (un : Int))

/-- The call `strings.ReplaceAll(str, old, "")` for a one-byte `old`. -/
def removeAll (old : Char) (str : String) : String :=
  String.mk (str.toList.filter (fun c => c != old))

/-- The function `moneyStringToInt`; `none` is the panic `failed to parse int`. -/
def moneyStringToInt (str : String) : Option Int :=
  let s := removeAll '.' str
  let s := removeAll '-' s
  parseInt32 s.toList

/-- The helper `getnum` of package `time`: one or two leading digits (exactly
two when `fixed`). -/
def getnum (s : List Char) (fixed : Bool) : Option (Nat × List Char) :=
  match s with
  | [] => none
  | c0 :: rest =>
    if !isDigit c0 then none
    else
      match rest with
      | [] => if fixed then none else some (digitVal c0, rest)
      | c1 :: rest2 =>
        if isDigit c1 then some (digitVal c0 * 10 + digitVal c1, rest2)
        else if fixed then none else some (digitVal c0, rest)

/-- The helper `skip` of package `time` for the one-byte literal `/`. -/
def skipSlash (value : List Char) : Option (List Char) :=
  match value with
  | '/' :: rest => some rest
  | _ => none

/-- The helper `isLeap` of package `time`. -/
def isLeap (year : Nat) : Bool :=
  year % 4 == 0 && (year % 100 != 0 || year % 400 == 0)

/-- The helper `daysIn` of package `time`. -/
def daysIn (month year : Nat) : Nat :=
  if month = 2 then (if isLeap year then 29 else 28)
  else if month = 4 ∨ month = 6 ∨ month = 9 ∨ month = 11 then 30
  else 31

/-- The call `time.Parse("1/2/2006", str)`: a month of one or two digits, `/`,
a day of one or two digits, `/`, a year of exactly four digits and nothing
after it; the month lies in 1..12 and the day exists in that month. -/
def timeParse (str : List Char) : Option Time :=
  match getnum str false with
  | none => none
  | some (month, value) =>
    if month = 0 ∨ 12 < month then none
    else
      match skipSlash value with
      | none => none
      | some value =>
        match getnum value false with
        | none => none
        | some (day, value) =>
          match skipSlash value with
          | none => none
          | some value =>
            match value with
            | [y0, y1, y2, y3] =>
              if isDigit y0 && isDigit y1 && isDigit y2 && isDigit y3 then
                let year := decimalValue [y0, y1, y2, y3]
                if day < 1 ∨ day > daysIn month year then none
                else some { year := year, month := month, day := day }
              else none
            | _ => none

/-- The function `parseDate`; `none` is the panic `failed to parse time`. -/
def parseDate (str : String) : Option Time := timeParse str.toList

/-- The digit character of a value below ten. -/
def digitChar (n : Nat) : Char := Char.ofNat ('0'.toNat + n % 10)

/-- The call `t.Format("01/02/2006")`: two-digit month, two-digit day and
four-digit year, zero padded. -/
def timeFormat (t : Time) : String :=
  String.mk [digitChar (t.month / 10), digitChar t.month, '/',
    digitChar (t.day / 10), digitChar t.day, '/',
    digitChar (t.year / 1000), digitChar (t.year / 100), digitChar (t.year / 10),
    digitChar t.year]

/-- The function `formatDateString`. -/
def formatDateString (str : String) : Option String :=
  (parseDate str).map timeFormat

/-- The comparison of the sort in `parseRecords`:
`updatedClaims[i].DateOfService.Before(updatedClaims[j].DateOfService)`. -/
def dateBefore (x y : Claim) : Bool := x.DateOfService.Before y.DateOfService

/-- The composite literal `Claim{...}` of `parseRecords` for one row; an index
past the end of the row panics, as do `parseDate` and `moneyStringToInt`. -/
def buildClaim (value : List String) : Option Claim := do
  let v0 ← value[0]?
  let v4 ← value[4]?
  let v5 ← value[5]?
  let v6 ← value[6]?
  let dateOfService ← parseDate v6
  let dateOfServiceString ← formatDateString v6
  let v10 ← value[10]?
  let insurancePaid ← moneyStringToInt v10
  let v11 ← value[11]?
  let v12 ← value[12]?
  let adjustmentAmount ← moneyStringToInt v12
  let v14 ← value[14]?
  let v15 ← value[15]?
  pure {
    ChartNumber := v0
    CaseNumber := v4
    ClaimNo := v5
    DateOfService := dateOfService
    DateOfServiceString := dateOfServiceString
    InsurancePaid := insurancePaid
    InsurancePaidString := removeAll '-' v10
    InsuranceName := v11
    AdjustmentAmount := adjustmentAmount
    AdjustmentAmountString := removeAll '-' v12
    Facility := v14
    Sheet := v15
    Duplicate := false }

/-- One round of the loop of `parseRecords`. -/
def parseStep (env : GoEnv) (charts : ChartMap) (value : List String) : Option ChartMap := do
  let chartNo ← value[0]?
  let chartClaims := (mapIndex charts chartNo).getD []
  let claim ← buildClaim value
  let updatedClaims := chartClaims ++ [claim]
  pure (mapAssign charts chartNo (env.sortSlice dateBefore updatedClaims))

/-- The loop of `parseRecords` from a given state of `charts`. -/
def parseLoop (env : GoEnv) : ChartMap → List (List String) → Option ChartMap
  | charts, [] => some charts
  | charts, value :: rest =>
    match parseStep env charts value with
    | none => none
    | some charts1 => parseLoop env charts1 rest

/-- The function `parseRecords`; `none` is a panic, and the error it returns
beside the mapping is always `nil`. -/
def parseRecords (env : GoEnv) (records : List (List String)) : Option ChartMap :=
  parseLoop env [] records

/-- The four stages as `main` chains them. -/
def pipeline (env : GoEnv) (records : List (List String)) : Option ChartMap :=
  (parseRecords env records).map
    (fun chartMap =>
      markDuplicatePayments env
        (removeSumZeroClaimRecords env (removeSingleClaimRecords env chartMap)))

/-! ## Instances of the runtime -/

/-- The library sort, with maps visited in the order their keys were added. -/
def goEnv : GoEnv where
  sortSlice := goSortSlice
  mapRange := fun _ m => m

/-- A runtime whose sort is insertion sort at every length, with maps visited
against the order their keys were added. -/
def insertionEnv : GoEnv where
  sortSlice := fun less xs => insertionSort_func less xs 0 xs.length
  mapRange := fun _ m => m.reverse

/-- The library sorts slices of at most twelve elements by insertion sort
(`maxInsertion = 12` in `pdqsort_func`). -/
def SmallInsertion (env : GoEnv) : Prop :=
  ∀ (less : Claim → Claim → Bool) (xs : List Claim), xs.length ≤ 12 →
    env.sortSlice less xs = insertionSort_func less xs 0 xs.length

/-! ## Sample data -/

/-- A claim of chart `chart` with the given claim number, rendered date, amount
in cents and flag; the service date is 2 January 2020 throughout. -/
def sampleClaim (chart claimNo date : String) (paid : Int) (duplicate : Bool) : Claim :=
  { ChartNumber := chart, CaseNumber := "", ClaimNo := claimNo,
    DateOfService := { year := 2020, month := 1, day := 2 },
    DateOfServiceString := date, InsurancePaid := paid, InsurancePaidString := "",
    InsuranceName := "", AdjustmentAmount := 0, AdjustmentAmountString := "",
    Facility := "", Sheet := "", Duplicate := duplicate }

/-- Chart `A`: three claims of one date paying 100, 300 and 300 cents. -/
def chartA : List Claim :=
  [sampleClaim "A" "1" "01/02/2020" 100 false, sampleClaim "A" "2" "01/02/2020" 300 false,
   sampleClaim "A" "3" "01/02/2020" 300 false]

/-- Chart `B`: a single claim. -/
def chartB : List Claim := [sampleClaim "B" "4" "01/02/2020" 700 false]

/-- Chart `C`: two claims of different dates that paid nothing. -/
def chartC : List Claim :=
  [sampleClaim "C" "5" "01/02/2020" 0 false, sampleClaim "C" "6" "01/03/2020" 0 false]

/-- A chart mapping with the charts `A`, `B` and `C`. -/
def sampleMap : ChartMap := [("A", chartA), ("B", chartB), ("C", chartC)]

/-- Chart `O`: two claims of 2^62 cents each; their total is 2^63. -/
def overflowChart : List Claim :=
  [sampleClaim "O" "7" "01/02/2020" (2 ^ 62) false, sampleClaim "O" "8" "01/02/2020" (2 ^ 62) false]

/-- Chart `P`: claims of 2^63 - 1 cents and of one cent. -/
def overflowChart2 : List Claim :=
  [sampleClaim "P" "9" "01/02/2020" (2 ^ 63 - 1) false, sampleClaim "P" "10" "01/02/2020" 1 false]

/-- No claim of the mapping carries `Duplicate = true`: the state of every
mapping that reaches `markDuplicatePayments` from `parseRecords`. -/
def Unflagged (m : ChartMap) : Prop := ∀ e ∈ m, ∀ c ∈ e.2, c.Duplicate = false

instance decidableUnflagged (m : ChartMap) : Decidable (Unflagged m) :=
  inferInstanceAs (Decidable (∀ e ∈ m, ∀ c ∈ e.2, c.Duplicate = false))

/-- The claim carries the amount `p`. -/
def paidIs (p : Int) (c : Claim) : Bool := decide (c.InsurancePaid = p)

/-- Chart `D`: one claim that already carries `Duplicate = true`. -/
def flaggedChart : List Claim := [sampleClaim "D" "11" "01/02/2020" 500 true]

/-- Chart `E`: thirteen claims of one date; the first paid 100 cents, the twelve
that follow paid 300 cents each. -/
def chartE : List Claim :=
  [sampleClaim "E" "0" "01/02/2020" 100 false, sampleClaim "E" "1" "01/02/2020" 300 false,
   sampleClaim "E" "2" "01/02/2020" 300 false, sampleClaim "E" "3" "01/02/2020" 300 false,
   sampleClaim "E" "4" "01/02/2020" 300 false, sampleClaim "E" "5" "01/02/2020" 300 false,
   sampleClaim "E" "6" "01/02/2020" 300 false, sampleClaim "E" "7" "01/02/2020" 300 false,
   sampleClaim "E" "8" "01/02/2020" 300 false, sampleClaim "E" "9" "01/02/2020" 300 false,
   sampleClaim "E" "10" "01/02/2020" 300 false, sampleClaim "E" "11" "01/02/2020" 300 false,
   sampleClaim "E" "12" "01/02/2020" 300 false]

/-- A row of sixteen fields with the given chart number, claim number, date of
service and insurance-paid amount. -/
def sampleRow (chart claimNo date paid : String) : List String :=
  [chart, "", "", "", "case", claimNo, date, "", "", "", paid, "payer", "0.00", "", "clinic",
   "sheet"]

/-- Two rows of chart `A1`, both dated 1/2/2020, paying 50.00 and 0.00. -/
def rowsA1 : List (List String) :=
  [sampleRow "A1" "1" "1/2/2020" "50.00", sampleRow "A1" "2" "1/2/2020" "0.00"]

/-- The claim `parseRecords` builds from a row of `rowsA1`. -/
def claimA1 (claimNo paidString : String) (paid : Int) (duplicate : Bool) : Claim :=
  { ChartNumber := "A1", CaseNumber := "case", ClaimNo := claimNo,
    DateOfService := { year := 2020, month := 1, day := 2 },
    DateOfServiceString := "01/02/2020", InsurancePaid := paid,
    InsurancePaidString := paidString, InsuranceName := "payer", AdjustmentAmount := 0,
    AdjustmentAmountString := "0.00", Facility := "clinic", Sheet := "sheet",
    Duplicate := duplicate }

/-- The claims `parseRecords` builds from the rows whose field 0 is `k`, in the
order of the rows. -/
def rowClaims (k : String) (records : List (List String)) : List Claim :=
  records.filterMap (fun value => if value[0]? = some k then buildClaim value else none)

/-- Three rows: chart `A1` on 1/3/2020 and on 1/2/2020, chart `B7` on 12/31/2019. -/
def rowsMixed : List (List String) :=
  [sampleRow "A1" "1" "1/3/2020" "50.00", sampleRow "B7" "2" "12/31/2019" "-7.5",
   sampleRow "A1" "3" "1/2/2020" "0.00"]

/-- The claim `parseRecords` builds from a row made by `sampleRow`. -/
def sampleParsed (chart claimNo : String) (date : Time) (dateString paidString : String)
    (paid : Int) : Claim :=
  { ChartNumber := chart, CaseNumber := "case", ClaimNo := claimNo, DateOfService := date,
    DateOfServiceString := dateString, InsurancePaid := paid,
    InsurancePaidString := paidString, InsuranceName := "payer", AdjustmentAmount := 0,
    AdjustmentAmountString := "0.00", Facility := "clinic", Sheet := "sheet",
    Duplicate := false }

/-- What `parseRecords` makes of `rowsMixed` under `insertionEnv`. -/
def parsedMixed : ChartMap :=
  [("A1", [sampleParsed "A1" "3" { year := 2020, month := 1, day := 2 } "01/02/2020" "0.00" 0,
           sampleParsed "A1" "1" { year := 2020, month := 1, day := 3 } "01/03/2020" "50.00" 5000]),
   ("B7", [sampleParsed "B7" "2" { year := 2019, month := 12, day := 31 } "12/31/2019" "7.5" 75])]

/-- The row has its sixteen fields, and its date and two amounts parse. -/
def RowParses (r : List String) : Prop :=
  16 ≤ r.length ∧ (∃ v6 t, r[6]? = some v6 ∧ parseDate v6 = some t) ∧
  (∃ v10 p, r[10]? = some v10 ∧ moneyStringToInt v10 = some p) ∧
  (∃ v12 a, r[12]? = some v12 ∧ moneyStringToInt v12 = some a)

/-- The number of claims in a mapping. -/
def claimCount (m : ChartMap) : Nat := (m.map (fun e => e.2.length)).sum

/-- The number that a string of decimal digits denotes in base 10: every digit
counts for its value times the power of ten of its place. -/
def baseTenValue : List Char → Nat
  | [] => 0
  | c :: cs => digitVal c * 10 ^ cs.length + baseTenValue cs

/-- The character is a decimal digit, the separator `.` or the sign `-`. -/
def amountChar (c : Char) : Bool := isDigit c || c == '.' || c == '-'

/-- The list `parsedMixed` keeps under `A1`. -/
def parsedA1 : List Claim :=
  [sampleParsed "A1" "3" { year := 2020, month := 1, day := 2 } "01/02/2020" "0.00" 0,
   sampleParsed "A1" "1" { year := 2020, month := 1, day := 3 } "01/03/2020" "50.00" 5000]

/-- Thirteen rows of chart `K`: twelve dated 1/3/2020, numbered 0 to 11, then one
dated 1/2/2020, numbered 12. -/
def rowsK : List (List String) :=
  [sampleRow "K" "0" "1/3/2020" "1.00", sampleRow "K" "1" "1/3/2020" "1.00",
   sampleRow "K" "2" "1/3/2020" "1.00", sampleRow "K" "3" "1/3/2020" "1.00",
   sampleRow "K" "4" "1/3/2020" "1.00", sampleRow "K" "5" "1/3/2020" "1.00",
   sampleRow "K" "6" "1/3/2020" "1.00", sampleRow "K" "7" "1/3/2020" "1.00",
   sampleRow "K" "8" "1/3/2020" "1.00", sampleRow "K" "9" "1/3/2020" "1.00",
   sampleRow "K" "10" "1/3/2020" "1.00", sampleRow "K" "11" "1/3/2020" "1.00",
   sampleRow "K" "12" "1/2/2020" "1.00"]

/-- The claim carries the service date `t`. -/
def dateIs (t : Time) (c : Claim) : Bool := decide (c.DateOfService = t)

/-- What `parseRecords` makes of a row of `rowsK`. -/
def claimK (claimNo : String) (day : Nat) (dateString : String) : Claim :=
  sampleParsed "K" claimNo { year := 2020, month := 1, day := day } dateString "1.00" 100

/-- The list that `parseRecords` keeps under `K` for `rowsK` when the sort is the
library's. -/
def parsedK : List Claim :=
  [claimK "12" 2 "01/02/2020", claimK "6" 3 "01/03/2020", claimK "2" 3 "01/03/2020",
   claimK "3" 3 "01/03/2020", claimK "4" 3 "01/03/2020", claimK "5" 3 "01/03/2020",
   claimK "0" 3 "01/03/2020", claimK "7" 3 "01/03/2020", claimK "8" 3 "01/03/2020",
   claimK "9" 3 "01/03/2020", claimK "10" 3 "01/03/2020", claimK "11" 3 "01/03/2020",
   claimK "1" 3 "01/03/2020"]

/-- Chart `F`: five claims of two dates that alternate in the input, paying 100,
50, 300, 70 and 200 cents. -/
def chartF : List Claim :=
  [sampleClaim "F" "1" "01/02/2020" 100 false, sampleClaim "F" "2" "01/03/2020" 50 false,
   sampleClaim "F" "3" "01/02/2020" 300 false, sampleClaim "F" "4" "01/03/2020" 70 false,
   sampleClaim "F" "5" "01/02/2020" 200 false]

/-- What `markDuplicatePayments` makes of chart `F` under `insertionEnv`: the two
claims of 01/03/2020, then the three claims of 01/02/2020. -/
def markedF : List Claim :=
  [sampleClaim "F" "4" "01/03/2020" 70 false, sampleClaim "F" "2" "01/03/2020" 50 true,
   sampleClaim "F" "3" "01/02/2020" 300 false, sampleClaim "F" "5" "01/02/2020" 200 true,
   sampleClaim "F" "1" "01/02/2020" 100 true]

/-! ## Vocabulary of the statements -/

/-- The claim carries the rendered service date `d`. -/
def onDate (d : String) (c : Claim) : Bool := decide (c.DateOfServiceString = d)

/-- The claim with its `Duplicate` flag put back to `false`: what is left of a
claim when the flag is ignored. -/
def clearDuplicate (c : Claim) : Claim := { c with Duplicate := false }

/-- The true (unbounded) total of `InsurancePaid` over a list of claims. -/
def totalPaid (claims : List Claim) : Int := (claims.map (fun c => c.InsurancePaid)).sum

/-- A block is a slice of `dosMap` after sorting: all its claims carry the key
of the block as their date. -/
def Homogeneous (blocks : ChartMap) : Prop :=
  ∀ e ∈ blocks, ∀ c ∈ e.2, c.DateOfServiceString = e.1

/-! ## Insertion sort -/

section InsertionSort
variable {α : Type}

theorem getElem?_append_cons_length (l1 : List α) (x : α) (l2 : List α) :
    (l1 ++ x :: l2)[l1.length]? = some x := by
  rw [List.getElem?_append_right (Nat.le_refl _)]
  simp

theorem getElem?_append_cons_succ (l1 : List α) (y x : α) (l2 : List α) :
    (l1 ++ y :: x :: l2)[l1.length + 1]? = some x := by
  rw [List.getElem?_append_right (by omega)]
  simp

theorem swapAt_adjacent (l1 : List α) (y x : α) (l2 : List α) :
    swapAt (l1 ++ y :: x :: l2) (l1.length + 1) l1.length = l1 ++ x :: y :: l2 := by
  unfold swapAt
  rw [getElem?_append_cons_succ, getElem?_append_cons_length]
  simp only
  rw [List.set_append_right _ _ (by omega)]
  simp only [Nat.add_sub_cancel_left, List.set_cons_succ, List.set_cons_zero]
  rw [List.set_append_right _ _ (by omega)]
  simp

theorem lessAt_adjacent (less : α → α → Bool) (l1 : List α) (y x : α) (l2 : List α) :
    lessAt less (l1 ++ y :: x :: l2) (l1.length + 1) l1.length = less x y := by
  unfold lessAt
  rw [getElem?_append_cons_succ, getElem?_append_cons_length]

theorem insertionShift_eq (less : α → α → Bool) (front : List α) (rp : List α) (x : α)
    (rest : List α) :
    insertionShift less front.length (front.length + rp.length)
        (front ++ rp.reverse ++ x :: rest)
      = front ++ (insertRev less x rp).reverse ++ rest := by
  induction rp generalizing rest with
  | nil =>
    simp only [List.length_nil, Nat.add_zero, List.reverse_nil, List.append_nil, insertRev,
      List.reverse_cons, List.nil_append]
    cases hf : front.length with
    | zero => simp [insertionShift]
    | succ n => simp [insertionShift]
  | cons y ys ih =>
    have hlen : front.length + (y :: ys).length = (front ++ ys.reverse).length + 1 := by
      simp; omega
    have hdata : front ++ (y :: ys).reverse ++ x :: rest
        = (front ++ ys.reverse) ++ y :: x :: rest := by simp
    rw [hlen, hdata, insertionShift, lessAt_adjacent, swapAt_adjacent]
    have hlt : front.length < (front ++ ys.reverse).length + 1 := by simp; omega
    by_cases h : less x y = true
    · simp only [hlt, decide_True, h, Bool.and_self, if_true]
      have h2 : (front ++ ys.reverse).length = front.length + ys.length := by simp
      rw [h2, List.append_assoc front, ← List.append_assoc front, ih (y :: rest)]
      simp [insertRev, h]
    · simp [h, insertRev]

theorem length_insertRev (less : α → α → Bool) (x : α) (rp : List α) :
    (insertRev less x rp).length = rp.length + 1 := by
  induction rp with
  | nil => rfl
  | cons z zs ihz =>
    simp only [insertRev]
    split <;> simp [ihz]

theorem foldl_insertionShift (less : α → α → Bool) (front : List α) (ys rp back : List α) :
    (List.range' (front.length + rp.length) ys.length).foldl
        (fun d i => insertionShift less front.length i d) (front ++ rp.reverse ++ (ys ++ back))
      = front ++ (ys.foldl (fun rp x => insertRev less x rp) rp).reverse ++ back := by
  induction ys generalizing rp with
  | nil => simp
  | cons y ys ih =>
    have hr : List.range' (front.length + rp.length) (y :: ys).length
        = (front.length + rp.length) :: List.range' (front.length + rp.length + 1) ys.length := by
      simp [List.range'_succ]
    rw [hr, List.foldl_cons, List.cons_append, insertionShift_eq, List.foldl_cons]
    have hl : front.length + rp.length + 1 = front.length + (insertRev less y rp).length := by
      rw [length_insertRev]; omega
    rw [hl, ih]

/-- `insertionSort_func` on `data[a:b]` is insertion from the right. -/
theorem insertionSort_func_eq (less : α → α → Bool) (front xs back : List α) :
    insertionSort_func less (front ++ xs ++ back) front.length (front.length + xs.length)
      = front ++ insertionSortList less xs ++ back := by
  unfold insertionSort_func insertionSortList
  cases xs with
  | nil => simp
  | cons x xs =>
    have h := foldl_insertionShift less front xs [x] back
    simp only [List.length_singleton, List.reverse_singleton] at h
    have hn : front.length + (x :: xs).length - (front.length + 1) = xs.length := by
      simp; omega
    rw [hn]
    have hd : front ++ x :: xs ++ back = front ++ [x] ++ (xs ++ back) := by simp
    rw [hd, h]
    simp [insertRev]

theorem insertionSort_func_whole (less : α → α → Bool) (xs : List α) :
    insertionSort_func less xs 0 xs.length = insertionSortList less xs := by
  have h := insertionSort_func_eq less [] xs []
  simpa using h

theorem StrictWeak.asymm {less : α → α → Bool} (h : StrictWeak less) {a b : α}
    (hab : less a b = true) : less b a = false := by
  cases hba : less b a with
  | false => rfl
  | true =>
    have := h.trans a b a hab hba
    rw [h.irrefl a] at this
    exact absurd this (by simp)

theorem perm_insertRev (less : α → α → Bool) (x : α) (rp : List α) :
    (insertRev less x rp).Perm (x :: rp) := by
  induction rp with
  | nil => exact List.Perm.refl _
  | cons y ys ih =>
    simp only [insertRev]
    split
    · exact ((List.Perm.cons y ih)).trans (List.Perm.swap x y ys)
    · exact List.Perm.refl _

theorem perm_foldl_insertRev (less : α → α → Bool) (xs rp : List α) :
    (xs.foldl (fun rp x => insertRev less x rp) rp).Perm (xs ++ rp) := by
  induction xs generalizing rp with
  | nil => exact List.Perm.refl _
  | cons x xs ih =>
    rw [List.foldl_cons]
    refine (ih _).trans ?_
    refine (List.Perm.append_left xs (perm_insertRev less x rp)).trans ?_
    simp

theorem perm_insertionSortList (less : α → α → Bool) (xs : List α) :
    (insertionSortList less xs).Perm xs := by
  unfold insertionSortList
  refine (List.reverse_perm _).trans ?_
  have := perm_foldl_insertRev less xs []
  simpa using this

theorem pairwise_insertRev {less : α → α → Bool} (h : StrictWeak less) (x : α) (rp : List α)
    (hrp : rp.Pairwise (fun a b => less a b = false)) :
    (insertRev less x rp).Pairwise (fun a b => less a b = false) := by
  induction rp with
  | nil => simp [insertRev]
  | cons y ys ih =>
    have hy := (List.pairwise_cons.mp hrp).1
    have hys := (List.pairwise_cons.mp hrp).2
    simp only [insertRev]
    split
    · rename_i hxy
      refine List.pairwise_cons.mpr ⟨?_, ih hys⟩
      intro z hz
      rcases List.mem_cons.mp ((perm_insertRev less x ys).mem_iff.mp hz) with hz1 | hz1
      · rw [hz1]
        exact h.asymm hxy
      · exact hy z hz1
    · rename_i hxy
      have hxy' : less x y = false := by simpa using hxy
      refine List.pairwise_cons.mpr ⟨?_, hrp⟩
      intro z hz
      rcases List.mem_cons.mp hz with hz | hz
      · subst hz; exact hxy'
      · exact h.incomp x y z hxy' (hy z hz)

theorem pairwise_foldl_insertRev {less : α → α → Bool} (h : StrictWeak less) (xs rp : List α)
    (hrp : rp.Pairwise (fun a b => less a b = false)) :
    (xs.foldl (fun rp x => insertRev less x rp) rp).Pairwise (fun a b => less a b = false) := by
  induction xs generalizing rp with
  | nil => exact hrp
  | cons x xs ih => exact ih _ (pairwise_insertRev h x rp hrp)

theorem sorted_insertionSortList {less : α → α → Bool} (h : StrictWeak less) (xs : List α) :
    (insertionSortList less xs).Pairwise (fun a b => less b a = false) := by
  unfold insertionSortList
  rw [List.pairwise_reverse]
  exact pairwise_foldl_insertRev h xs [] List.Pairwise.nil

/-- Insertion from the right never carries an element past one it is tied with. -/
theorem filter_insertRev (less : α → α → Bool) (p : α → Bool)
    (hp : ∀ a b, p a = true → p b = true → less a b = false) (x : α) (rp : List α) :
    (insertRev less x rp).filter p = (x :: rp).filter p := by
  induction rp with
  | nil => rfl
  | cons y ys ih =>
    simp only [insertRev]
    split
    · rename_i hxy
      rw [List.filter_cons, ih]
      by_cases hx : p x = true
      · by_cases hy : p y = true
        · rw [hp x y hx hy] at hxy
          exact absurd hxy (by simp)
        · simp [List.filter_cons, hx, hy]
      · simp [List.filter_cons, hx]
    · rfl

theorem filter_foldl_insertRev (less : α → α → Bool) (p : α → Bool)
    (hp : ∀ a b, p a = true → p b = true → less a b = false) (xs rp : List α) :
    (xs.foldl (fun rp x => insertRev less x rp) rp).filter p = (xs.reverse ++ rp).filter p := by
  induction xs generalizing rp with
  | nil => rfl
  | cons x xs ih =>
    rw [List.foldl_cons, ih, List.filter_append, filter_insertRev less p hp]
    simp [List.filter_append]

/-- Insertion sort is stable: the elements of a tie class keep their order. -/
theorem filter_insertionSortList (less : α → α → Bool) (p : α → Bool)
    (hp : ∀ a b, p a = true → p b = true → less a b = false) (xs : List α) :
    (insertionSortList less xs).filter p = xs.filter p := by
  unfold insertionSortList
  rw [List.filter_reverse, filter_foldl_insertRev less p hp]
  simp [List.filter_reverse]

end InsertionSort

/-! ## Maps: reading, writing, iterating -/

theorem mapIndex_mapAssign_self (m : ChartMap) (k : String) (v : List Claim) :
    mapIndex (mapAssign m k v) k = some v := by
  induction m with
  | nil => simp [mapAssign, mapIndex]
  | cons e rest ih =>
    by_cases h : e.1 = k
    · simp [mapAssign, mapIndex, h]
    · simp [mapAssign, mapIndex, h, ih]

theorem mapIndex_mapAssign_ne (m : ChartMap) {k k' : String} (v : List Claim) (h : k ≠ k') :
    mapIndex (mapAssign m k v) k' = mapIndex m k' := by
  induction m with
  | nil => simp [mapAssign, mapIndex, h]
  | cons e rest ih =>
    by_cases h1 : e.1 = k
    · have h2 : ¬ e.1 = k' := fun h3 => h (h1.symm.trans h3)
      simp [mapAssign, mapIndex, h1, h2, h]
    · by_cases h2 : e.1 = k'
      · have h3 : ¬ k' = k := fun h3 => h1 (h2.trans h3)
        simp [mapAssign, mapIndex, h2, h3]
      · simp [mapAssign, mapIndex, h1, h2, ih]

theorem mapIndex_eq_none_iff (m : ChartMap) (k : String) :
    mapIndex m k = none ↔ k ∉ m.map Prod.fst := by
  induction m with
  | nil => simp [mapIndex]
  | cons e rest ih =>
    by_cases h : e.1 = k
    · simp [mapIndex, h]
    · have h' : ¬ k = e.1 := fun h1 => h h1.symm
      simp [mapIndex, h, h', ih]

theorem mem_of_mapIndex {m : ChartMap} {k : String} {v : List Claim}
    (h : mapIndex m k = some v) : (k, v) ∈ m := by
  induction m with
  | nil => simp [mapIndex] at h
  | cons e rest ih =>
    by_cases h1 : e.1 = k
    · simp [mapIndex, h1] at h
      have : e = (k, v) := by rw [← h1, ← h]
      simp [this]
    · simp [mapIndex, h1] at h
      exact List.mem_cons_of_mem _ (ih h)

theorem mapIndex_of_mem {m : ChartMap} (hm : KeysNodup m) {k : String} {v : List Claim}
    (h : (k, v) ∈ m) : mapIndex m k = some v := by
  induction m with
  | nil => simp at h
  | cons e rest ih =>
    have hnd : k ∈ rest.map Prod.fst → ¬ e.1 = k := by
      intro hk he
      have h2 := (List.nodup_cons.mp hm).1
      exact h2 (he ▸ hk)
    rcases List.mem_cons.mp h with h1 | h1
    · simp [mapIndex, ← h1]
    · have hk : k ∈ rest.map Prod.fst := List.mem_map.mpr ⟨(k, v), h1, rfl⟩
      simp [mapIndex, hnd hk, ih (List.nodup_cons.mp hm).2 h1]

theorem mapIndex_perm {m m' : ChartMap} (hm : KeysNodup m) (hp : m'.Perm m) (k : String) :
    mapIndex m' k = mapIndex m k := by
  have hm' : KeysNodup m' := ((hp.map Prod.fst).nodup_iff).mpr hm
  cases h : mapIndex m k with
  | none =>
    rw [mapIndex_eq_none_iff] at h ⊢
    intro hk
    exact h ((hp.map Prod.fst).mem_iff.mp hk)
  | some v =>
    exact mapIndex_of_mem hm' (hp.mem_iff.mpr (mem_of_mapIndex h))

theorem keys_mapAssign (m : ChartMap) (k : String) (v : List Claim) :
    (mapAssign m k v).map Prod.fst =
      if k ∈ m.map Prod.fst then m.map Prod.fst else m.map Prod.fst ++ [k] := by
  induction m with
  | nil => simp [mapAssign]
  | cons e rest ih =>
    by_cases h : e.1 = k
    · simp [mapAssign, h]
    · have h' : ¬ k = e.1 := fun h1 => h h1.symm
      simp only [mapAssign, h, if_false, List.map_cons, ih, List.mem_cons, h', false_or]
      split <;> simp

theorem keysNodup_mapAssign {m : ChartMap} (hm : KeysNodup m) (k : String) (v : List Claim) :
    KeysNodup (mapAssign m k v) := by
  unfold KeysNodup at *
  rw [keys_mapAssign]
  split
  · exact hm
  · rename_i h
    exact List.Nodup.append hm (List.nodup_singleton k) (by simpa using h)

theorem mem_mapAssign {m : ChartMap} {k : String} {v : List Claim} {e : String × List Claim}
    (h : e ∈ mapAssign m k v) : e = (k, v) ∨ e ∈ m := by
  induction m with
  | nil => simpa [mapAssign] using h
  | cons e0 rest ih =>
    by_cases h1 : e0.1 = k
    · simp [mapAssign, h1] at h
      rcases h with h | h
      · exact Or.inl h
      · exact Or.inr (List.mem_cons_of_mem _ h)
    · simp [mapAssign, h1] at h
      rcases h with h | h
      · exact Or.inr (h ▸ List.mem_cons_self _ _)
      · rcases ih h with h2 | h2
        · exact Or.inl h2
        · exact Or.inr (List.mem_cons_of_mem _ h2)

/-- The loop `for k, v := range l { if p(v) { acc[k] = f(k, v) } }`, read key by key. -/
theorem mapIndex_foldl_assign (p : List Claim → Bool) (f : String → List Claim → List Claim)
    (l : ChartMap) (hl : KeysNodup l) (acc : ChartMap) (k : String) :
    mapIndex (l.foldl (fun acc e => if p e.2 then mapAssign acc e.1 (f e.1 e.2) else acc) acc) k
      = match mapIndex l k with
        | some v => if p v then some (f k v) else mapIndex acc k
        | none => mapIndex acc k := by
  induction l generalizing acc with
  | nil => simp [mapIndex]
  | cons e rest ih =>
    have hrest : KeysNodup rest := (List.nodup_cons.mp hl).2
    have hnot : e.1 ∉ rest.map Prod.fst := (List.nodup_cons.mp hl).1
    rw [List.foldl_cons, ih hrest]
    by_cases h : e.1 = k
    · have hnone : mapIndex rest k = none := by
        rw [mapIndex_eq_none_iff]; exact h ▸ hnot
      simp only [hnone, mapIndex, h, if_true]
      by_cases hp : p e.2 = true
      · simp [hp, ← h, mapIndex_mapAssign_self]
      · simp [hp]
    · simp only [mapIndex, h, if_false]
      have hacc : mapIndex (if p e.2 = true then mapAssign acc e.1 (f e.1 e.2) else acc) k
          = mapIndex acc k := by
        split
        · exact mapIndex_mapAssign_ne _ _ h
        · rfl
      rw [hacc]

theorem keysNodup_foldl_assign (p : List Claim → Bool) (f : String → List Claim → List Claim)
    (l : ChartMap) (acc : ChartMap) (hacc : KeysNodup acc) :
    KeysNodup (l.foldl (fun acc e => if p e.2 then mapAssign acc e.1 (f e.1 e.2) else acc) acc) := by
  induction l generalizing acc with
  | nil => exact hacc
  | cons e rest ih =>
    rw [List.foldl_cons]
    apply ih
    split
    · exact keysNodup_mapAssign hacc _ _
    · exact hacc

/-! ## The filters, key by key -/

theorem mapIndex_removeSingleClaimRecords (env : GoEnv) (henv : env.Valid) (m : ChartMap)
    (hm : KeysNodup m) (k : String) :
    mapIndex (removeSingleClaimRecords env m) k
      = match mapIndex m k with
        | some v => if v.length > 1 then some v else none
        | none => none := by
  have hp := henv.range_perm .removeSingle m
  have hnd : KeysNodup (env.mapRange .removeSingle m) := ((hp.map Prod.fst).nodup_iff).mpr hm
  have h := mapIndex_foldl_assign (fun v => decide (v.length > 1)) (fun _ v => v)
    (env.mapRange .removeSingle m) hnd [] k
  simp only [decide_eq_true_eq] at h
  unfold removeSingleClaimRecords
  rw [h, mapIndex_perm hm hp]
  rfl

theorem keysNodup_removeSingleClaimRecords (env : GoEnv) (m : ChartMap) :
    KeysNodup (removeSingleClaimRecords env m) := by
  have h := keysNodup_foldl_assign (fun v => decide (v.length > 1)) (fun _ v => v)
    (env.mapRange .removeSingle m) [] (by simp [KeysNodup])
  simp only [decide_eq_true_eq] at h
  exact h

theorem mapIndex_removeSumZeroClaimRecords (env : GoEnv) (henv : env.Valid) (m : ChartMap)
    (hm : KeysNodup m) (k : String) :
    mapIndex (removeSumZeroClaimRecords env m) k
      = match mapIndex m k with
        | some v => if sumPaid v > 0 then some v else none
        | none => none := by
  have hp := henv.range_perm .removeSumZero m
  have hnd : KeysNodup (env.mapRange .removeSumZero m) := ((hp.map Prod.fst).nodup_iff).mpr hm
  have h := mapIndex_foldl_assign (fun v => decide (sumPaid v > 0)) (fun _ v => v)
    (env.mapRange .removeSumZero m) hnd [] k
  simp only [decide_eq_true_eq] at h
  unfold removeSumZeroClaimRecords
  rw [h, mapIndex_perm hm hp]
  rfl

theorem keysNodup_removeSumZeroClaimRecords (env : GoEnv) (m : ChartMap) :
    KeysNodup (removeSumZeroClaimRecords env m) := by
  have h := keysNodup_foldl_assign (fun v => decide (sumPaid v > 0)) (fun _ v => v)
    (env.mapRange .removeSumZero m) [] (by simp [KeysNodup])
  simp only [decide_eq_true_eq] at h
  exact h

/-! ## The running sum -/

theorem wrapInt64_add_wrapInt64 (x y : Int) : wrapInt64 (wrapInt64 x + y) = wrapInt64 (x + y) := by
  unfold wrapInt64
  norm_num
  omega

theorem wrapInt64_of_range {x : Int} (h1 : -2 ^ 63 ≤ x) (h2 : x < 2 ^ 63) : wrapInt64 x = x := by
  unfold wrapInt64
  norm_num at *
  omega

theorem foldl_sumPaid (claims : List Claim) (s : Int) :
    claims.foldl (fun s claim => wrapInt64 (s + claim.InsurancePaid)) (wrapInt64 s)
      = wrapInt64 (s + totalPaid claims) := by
  induction claims generalizing s with
  | nil => simp [totalPaid]
  | cons c cs ih =>
    rw [List.foldl_cons, wrapInt64_add_wrapInt64, ih]
    simp [totalPaid, add_assoc]

theorem sumPaid_eq (claims : List Claim) : sumPaid claims = wrapInt64 (totalPaid claims) := by
  have h := foldl_sumPaid claims 0
  have h0 : wrapInt64 0 = 0 := by unfold wrapInt64; norm_num
  rw [h0] at h
  simpa [sumPaid] using h

/-! ## Grouping by date -/

theorem mapIndex_groupStep (dosMap : ChartMap) (c : Claim) (d : String) :
    mapIndex (groupStep dosMap c) d
      = if c.DateOfServiceString = d then some ((mapIndex dosMap d).getD [] ++ [c])
        else mapIndex dosMap d := by
  unfold groupStep
  by_cases h : c.DateOfServiceString = d
  · subst h
    simp only [if_true]
    rw [mapIndex_mapAssign_self]
    cases hx : mapIndex dosMap c.DateOfServiceString with
    | none => simp [mapIndex_mapAssign_self]
    | some v => simp [hx]
  · simp only [h, if_false]
    rw [mapIndex_mapAssign_ne _ _ h]
    split
    · exact mapIndex_mapAssign_ne _ _ h
    · rfl

theorem keysNodup_groupStep {dosMap : ChartMap} (h : KeysNodup dosMap) (c : Claim) :
    KeysNodup (groupStep dosMap c) := by
  unfold groupStep
  apply keysNodup_mapAssign
  split
  · exact keysNodup_mapAssign h _ _
  · exact h

theorem mapIndex_foldl_groupStep (cs : List Claim) (acc : ChartMap) (d : String) :
    mapIndex (cs.foldl groupStep acc) d
      = if cs.filter (onDate d) = [] then mapIndex acc d
        else some ((mapIndex acc d).getD [] ++ cs.filter (onDate d)) := by
  induction cs generalizing acc with
  | nil => simp
  | cons c cs ih =>
    rw [List.foldl_cons, ih, mapIndex_groupStep]
    by_cases h : c.DateOfServiceString = d
    · simp [List.filter_cons, onDate, h]
    · simp [List.filter_cons, onDate, h]

theorem keysNodup_foldl_groupStep (cs : List Claim) {acc : ChartMap} (h : KeysNodup acc) :
    KeysNodup (cs.foldl groupStep acc) := by
  induction cs generalizing acc with
  | nil => exact h
  | cons c cs ih => exact ih (keysNodup_groupStep h c)

theorem mapIndex_groupByDate (claims : List Claim) (d : String) :
    mapIndex (groupByDate claims) d
      = if claims.filter (onDate d) = [] then none else some (claims.filter (onDate d)) := by
  unfold groupByDate
  rw [mapIndex_foldl_groupStep]
  simp [mapIndex]

theorem keysNodup_groupByDate (claims : List Claim) : KeysNodup (groupByDate claims) :=
  keysNodup_foldl_groupStep claims (by simp [KeysNodup])

/-! ## Sorting the groups -/

theorem mapIndex_sortGroups (env : GoEnv) (henv : env.Valid) (key : String) (g : ChartMap)
    (hg : KeysNodup g) (d : String) :
    mapIndex (sortGroups env key g) d = (mapIndex g d).map (env.sortSlice paidGreater) := by
  have hp := henv.range_perm (.markSort key) g
  have hnd : KeysNodup (env.mapRange (.markSort key) g) :=
    ((hp.map Prod.fst).nodup_iff).mpr hg
  have h := mapIndex_foldl_assign (fun _ => true) (fun _ v => env.sortSlice paidGreater v)
    (env.mapRange (.markSort key) g) hnd g d
  simp only [if_true] at h
  unfold sortGroups
  rw [h, mapIndex_perm hg hp]
  cases mapIndex g d <;> rfl

theorem keysNodup_sortGroups (env : GoEnv) (key : String) (g : ChartMap) (hg : KeysNodup g) :
    KeysNodup (sortGroups env key g) := by
  have h := keysNodup_foldl_assign (fun _ => true) (fun _ v => env.sortSlice paidGreater v)
    (env.mapRange (.markSort key) g) g hg
  simp only [if_true] at h
  exact h

/-! ## Marking and concatenating the groups -/

theorem markFrom_succ (i : Nat) (l : List Claim) :
    markFrom (i + 1) l = l.map (fun c => { c with Duplicate := true }) := by
  induction l generalizing i with
  | nil => rfl
  | cons c cs ih => simp [markFrom, ih]

theorem markFrom_zero_cons (c : Claim) (cs : List Claim) :
    markFrom 0 (c :: cs) = c :: cs.map (fun c => { c with Duplicate := true }) := by
  simp [markFrom, markFrom_succ]

theorem map_clearDuplicate_markFrom (i : Nat) (l : List Claim) :
    (markFrom i l).map clearDuplicate = l.map clearDuplicate := by
  induction l generalizing i with
  | nil => rfl
  | cons c cs ih =>
    simp only [markFrom, List.map_cons, ih]
    split <;> rfl

theorem length_markFrom (i : Nat) (l : List Claim) : (markFrom i l).length = l.length := by
  have h := congrArg List.length (map_clearDuplicate_markFrom i l)
  simpa using h

theorem onDate_clearDuplicate (d : String) (c : Claim) :
    onDate d (clearDuplicate c) = onDate d c := rfl

theorem mem_markFrom {i : Nat} {l : List Claim} {c : Claim} (h : c ∈ markFrom i l) :
    ∃ c0 ∈ l, clearDuplicate c = clearDuplicate c0 := by
  have h1 : clearDuplicate c ∈ (markFrom i l).map clearDuplicate := List.mem_map_of_mem _ h
  rw [map_clearDuplicate_markFrom] at h1
  obtain ⟨c0, h0, h2⟩ := List.mem_map.mp h1
  exact ⟨c0, h0, h2.symm⟩

theorem onDate_of_clearDuplicate_eq {c c0 : Claim} (h : clearDuplicate c = clearDuplicate c0)
    (d : String) : onDate d c = onDate d c0 := by
  have := congrArg (onDate d) h
  simpa [onDate_clearDuplicate] using this

theorem filter_onDate_markFrom_of_eq {i : Nat} {l : List Claim} {d : String}
    (h : ∀ c ∈ l, c.DateOfServiceString = d) : (markFrom i l).filter (onDate d) = markFrom i l := by
  rw [List.filter_eq_self]
  intro c hc
  obtain ⟨c0, h0, h1⟩ := mem_markFrom hc
  rw [onDate_of_clearDuplicate_eq h1]
  simp [onDate, h c0 h0]

theorem filter_onDate_markFrom_of_ne {i : Nat} {l : List Claim} {d k : String}
    (h : ∀ c ∈ l, c.DateOfServiceString = k) (hk : k ≠ d) :
    (markFrom i l).filter (onDate d) = [] := by
  rw [List.filter_eq_nil_iff]
  intro c hc
  obtain ⟨c0, h0, h1⟩ := mem_markFrom hc
  rw [onDate_of_clearDuplicate_eq h1]
  simp [onDate, h c0 h0, hk]

/-- Among the concatenated blocks, the claims of date `d` are the block stored
under `d`, and they stand together. -/
theorem filter_onDate_blocks (blocks : ChartMap) (hnd : KeysNodup blocks)
    (hh : Homogeneous blocks) (d : String) :
    ((blocks.map (fun e => markFrom 0 e.2)).flatten).filter (onDate d)
        = markFrom 0 ((mapIndex blocks d).getD []) ∧
      ((blocks.map (fun e => markFrom 0 e.2)).flatten).filter (onDate d)
        <:+: (blocks.map (fun e => markFrom 0 e.2)).flatten := by
  induction blocks with
  | nil => simp [mapIndex, markFrom]
  | cons e rest ih =>
    have hrest : KeysNodup rest := (List.nodup_cons.mp hnd).2
    have hnot : e.1 ∉ rest.map Prod.fst := (List.nodup_cons.mp hnd).1
    have hhrest : Homogeneous rest := fun e' he' => hh e' (List.mem_cons_of_mem _ he')
    have he : ∀ c ∈ e.2, c.DateOfServiceString = e.1 := hh e (List.mem_cons_self _ _)
    obtain ⟨ih1, ih2⟩ := ih hrest hhrest
    simp only [List.map_cons, List.flatten_cons, List.filter_append]
    by_cases h : e.1 = d
    · have hnone : mapIndex rest d = none := by
        rw [mapIndex_eq_none_iff]; exact h ▸ hnot
      have h0 : ((rest.map (fun e => markFrom 0 e.2)).flatten).filter (onDate d) = [] := by
        rw [ih1, hnone]; rfl
      rw [h0, filter_onDate_markFrom_of_eq (fun c hc => (he c hc).trans h)]
      constructor
      · simp [mapIndex, h]
      · rw [List.append_nil]
        exact (List.prefix_append _ _).isInfix
    · rw [filter_onDate_markFrom_of_ne he h, List.nil_append]
      constructor
      · rw [ih1]; simp [mapIndex, h]
      · exact ih2.trans (List.suffix_append _ _).isInfix

theorem foldl_append_eq (g : String × List Claim → List Claim) (l : ChartMap)
    (init : List Claim) :
    l.foldl (fun allClaims e => allClaims ++ g e) init = init ++ (l.map g).flatten := by
  induction l generalizing init with
  | nil => simp
  | cons e rest ih => simp [List.foldl_cons, ih, List.append_assoc]

theorem combineGroups_eq (env : GoEnv) (key : String) (dosMap : ChartMap) :
    combineGroups env key dosMap
      = ((env.mapRange (.markCombine key) dosMap).map (fun e => markFrom 0 e.2)).flatten := by
  unfold combineGroups
  rw [foldl_append_eq (fun e => markFrom 0 e.2)]
  simp

/-! ## One chart through `markDuplicatePayments` -/

theorem sortSlice_nil (env : GoEnv) (henv : env.Valid) (less : Claim → Claim → Bool) :
    env.sortSlice less [] = [] :=
  List.perm_nil.mp (henv.sort_perm less [])

/-- The blocks that `combineGroups` concatenates for one chart. -/
theorem blocks_spec (env : GoEnv) (henv : env.Valid) (key : String) (claims : List Claim) :
    KeysNodup (env.mapRange (.markCombine key) (sortGroups env key (groupByDate claims))) ∧
    Homogeneous (env.mapRange (.markCombine key) (sortGroups env key (groupByDate claims))) ∧
    ∀ d, (mapIndex (env.mapRange (.markCombine key) (sortGroups env key (groupByDate claims)))
        d).getD [] = env.sortSlice paidGreater (claims.filter (onDate d)) := by
  have hg := keysNodup_groupByDate claims
  have hs := keysNodup_sortGroups env key _ hg
  have hp := henv.range_perm (.markCombine key) (sortGroups env key (groupByDate claims))
  have hb : KeysNodup (env.mapRange (.markCombine key) (sortGroups env key (groupByDate claims))) :=
    ((hp.map Prod.fst).nodup_iff).mpr hs
  have hidx : ∀ d, mapIndex (env.mapRange (.markCombine key)
      (sortGroups env key (groupByDate claims))) d
      = if claims.filter (onDate d) = [] then none
        else some (env.sortSlice paidGreater (claims.filter (onDate d))) := by
    intro d
    rw [mapIndex_perm hs hp, mapIndex_sortGroups env henv key _ hg, mapIndex_groupByDate]
    split <;> rfl
  refine ⟨hb, ?_, ?_⟩
  · intro e he c hc
    have h1 : mapIndex (env.mapRange (.markCombine key)
        (sortGroups env key (groupByDate claims))) e.1 = some e.2 := mapIndex_of_mem hb he
    rw [hidx] at h1
    split at h1
    · exact absurd h1 (by simp)
    · have h2 := Option.some.inj h1
      rw [← h2] at hc
      have h3 := (henv.sort_perm paidGreater _).mem_iff.mp hc
      have h4 := (List.mem_filter.mp h3).2
      simpa [onDate] using h4
  · intro d
    rw [hidx]
    split
    · rename_i h
      rw [h, sortSlice_nil env henv]
      rfl
    · rfl

/-- The claims of one date in the output of `markChart`: the claims of that date
in the input, sorted and marked. -/
theorem markChart_filter_onDate (env : GoEnv) (henv : env.Valid) (key : String)
    (claims : List Claim) (d : String) :
    (markChart env key claims).filter (onDate d)
      = markFrom 0 (env.sortSlice paidGreater (claims.filter (onDate d))) := by
  obtain ⟨h1, h2, h3⟩ := blocks_spec env henv key claims
  unfold markChart
  rw [combineGroups_eq, (filter_onDate_blocks _ h1 h2 d).1, h3]

theorem markChart_filter_onDate_contiguous (env : GoEnv) (henv : env.Valid) (key : String)
    (claims : List Claim) (d : String) :
    (markChart env key claims).filter (onDate d) <:+: markChart env key claims := by
  obtain ⟨h1, h2, _⟩ := blocks_spec env henv key claims
  unfold markChart
  rw [combineGroups_eq]
  exact (filter_onDate_blocks _ h1 h2 d).2

theorem count_eq_count_filter_onDate (l : List Claim) (x : Claim) :
    l.count x = (l.filter (onDate x.DateOfServiceString)).count x :=
  (List.count_filter (by simp [onDate])).symm

theorem filter_onDate_map_clearDuplicate (l : List Claim) (d : String) :
    (l.map clearDuplicate).filter (onDate d) = (l.filter (onDate d)).map clearDuplicate := by
  induction l with
  | nil => rfl
  | cons c cs ih =>
    by_cases h : onDate d c = true
    · simp [List.filter_cons, onDate_clearDuplicate, h, ih]
    · simp [List.filter_cons, onDate_clearDuplicate, h, ih]

/-- The output of `markChart` is the input up to order and the `Duplicate` flag. -/
theorem markChart_perm (env : GoEnv) (henv : env.Valid) (key : String) (claims : List Claim) :
    ((markChart env key claims).map clearDuplicate).Perm (claims.map clearDuplicate) := by
  rw [List.perm_iff_count]
  intro x
  rw [count_eq_count_filter_onDate, count_eq_count_filter_onDate (claims.map clearDuplicate)]
  rw [filter_onDate_map_clearDuplicate, filter_onDate_map_clearDuplicate,
    markChart_filter_onDate env henv, map_clearDuplicate_markFrom]
  exact ((henv.sort_perm paidGreater _).map clearDuplicate).count_eq x

theorem length_markChart (env : GoEnv) (henv : env.Valid) (key : String) (claims : List Claim) :
    (markChart env key claims).length = claims.length := by
  have h := (markChart_perm env henv key claims).length_eq
  simpa using h

/-- The function `markDuplicatePayments`, key by key. -/
theorem mapIndex_markDuplicatePayments (env : GoEnv) (henv : env.Valid) (m : ChartMap)
    (hm : KeysNodup m) (k : String) :
    mapIndex (markDuplicatePayments env m) k = (mapIndex m k).map (markChart env k) := by
  have hp := henv.range_perm .markCharts m
  have hnd : KeysNodup (env.mapRange .markCharts m) := ((hp.map Prod.fst).nodup_iff).mpr hm
  have h := mapIndex_foldl_assign (fun _ => true) (fun k v => markChart env k v)
    (env.mapRange .markCharts m) hnd [] k
  simp only [if_true] at h
  unfold markDuplicatePayments
  rw [h, mapIndex_perm hm hp]
  cases mapIndex m k <;> rfl

theorem keysNodup_markDuplicatePayments (env : GoEnv) (m : ChartMap) :
    KeysNodup (markDuplicatePayments env m) := by
  have h := keysNodup_foldl_assign (fun _ => true) (fun k v => markChart env k v)
    (env.mapRange .markCharts m) [] (by simp [KeysNodup])
  simp only [if_true] at h
  exact h

/-! ## The comparisons and the runtime instances -/

theorem strictWeak_paidGreater : StrictWeak paidGreater where
  irrefl := by intro a; simp [paidGreater]
  trans := by
    intro a b c h1 h2
    simp only [paidGreater, decide_eq_true_eq] at *
    omega
  incomp := by
    intro a b c h1 h2
    simp only [paidGreater, decide_eq_false_iff_not] at *
    omega

theorem strictWeak_dateBefore : StrictWeak dateBefore where
  irrefl := by intro a; simp [dateBefore, Time.Before]
  trans := by
    intro a b c h1 h2
    simp only [dateBefore, Time.Before, decide_eq_true_eq] at *
    omega
  incomp := by
    intro a b c h1 h2
    simp only [dateBefore, Time.Before, decide_eq_false_iff_not] at *
    omega

theorem insertionEnv_valid : insertionEnv.Valid where
  sort_perm := by
    intro less xs
    show (insertionSort_func less xs 0 xs.length).Perm xs
    rw [insertionSort_func_whole]
    exact perm_insertionSortList less xs
  sort_sorted := by
    intro less h xs
    show (insertionSort_func less xs 0 xs.length).Pairwise _
    rw [insertionSort_func_whole]
    exact sorted_insertionSortList h xs
  range_perm := by
    intro _ m
    exact List.reverse_perm m

theorem insertionEnv_smallInsertion : SmallInsertion insertionEnv := by
  intro less xs _
  rfl

theorem goEnv_smallInsertion : SmallInsertion goEnv := by
  intro less xs h
  show goSortSlice less xs = _
  unfold goSortSlice
  simp only [pdqsort_func, Nat.sub_zero, h, if_true]

/-! ## The claims -/

/-- C7: `removeSingleClaimRecords` keeps exactly the charts with more than one
claim: a key `k` carries the list `v` in the output if and only if it carries
`v` in the input and `v` has more than one claim; so the retained list is the
input list itself, and a key is present in the output exactly when it is
present in the input with more than one claim. -/
theorem removeSingleClaimRecords_spec (env : GoEnv) (henv : env.Valid) (m : ChartMap)
    (hm : KeysNodup m) (k : String) :
    (∀ v, mapIndex (removeSingleClaimRecords env m) k = some v ↔
        (mapIndex m k = some v ∧ 1 < v.length)) ∧
    (mapIndex (removeSingleClaimRecords env m) k ≠ none ↔
        ∃ v, mapIndex m k = some v ∧ 1 < v.length) := by
  have h := mapIndex_removeSingleClaimRecords env henv m hm k
  have h1 : ∀ v, mapIndex (removeSingleClaimRecords env m) k = some v ↔
      (mapIndex m k = some v ∧ 1 < v.length) := by
    intro v
    rw [h]
    cases hx : mapIndex m k with
    | none => simp
    | some w =>
      by_cases hw : w.length > 1
      · simp only [hw, if_true, Option.some.injEq]
        constructor
        · intro e; subst e; exact ⟨rfl, hw⟩
        · intro e; exact e.1
      · simp only [hw, if_false, Option.some.injEq]
        constructor
        · intro e; exact absurd e (by simp)
        · intro e; rw [← e.1] at e; exact absurd e.2 hw
  refine ⟨h1, ?_⟩
  constructor
  · intro hne
    cases hx : mapIndex (removeSingleClaimRecords env m) k with
    | none => exact absurd hx hne
    | some v => exact ⟨v, (h1 v).mp hx⟩
  · rintro ⟨v, hv⟩
    rw [(h1 v).mpr hv]
    simp

/-- C7 at chart `A` of `sampleMap`. -/
theorem removeSingleClaimRecords_spec_witness :
    insertionEnv.Valid ∧ KeysNodup sampleMap ∧
    ((∀ v, mapIndex (removeSingleClaimRecords insertionEnv sampleMap) "A" = some v ↔
        (mapIndex sampleMap "A" = some v ∧ 1 < v.length)) ∧
     (mapIndex (removeSingleClaimRecords insertionEnv sampleMap) "A" ≠ none ↔
        ∃ v, mapIndex sampleMap "A" = some v ∧ 1 < v.length)) :=
  ⟨insertionEnv_valid, by decide,
    removeSingleClaimRecords_spec insertionEnv insertionEnv_valid sampleMap (by decide) "A"⟩

theorem totalPaid_nonneg {claims : List Claim} (h : ∀ c ∈ claims, 0 ≤ c.InsurancePaid) :
    0 ≤ totalPaid claims := by
  induction claims with
  | nil => simp [totalPaid]
  | cons c cs ih =>
    have h1 := h c (List.mem_cons_self _ _)
    have h2 := ih (fun x hx => h x (List.mem_cons_of_mem _ hx))
    simp only [totalPaid, List.map_cons, List.sum_cons] at *
    omega

theorem totalPaid_eq_zero_iff {claims : List Claim} (h : ∀ c ∈ claims, 0 ≤ c.InsurancePaid) :
    totalPaid claims = 0 ↔ ∀ c ∈ claims, c.InsurancePaid = 0 := by
  induction claims with
  | nil => simp [totalPaid]
  | cons c cs ih =>
    have h1 := h c (List.mem_cons_self _ _)
    have hcs : ∀ x ∈ cs, 0 ≤ x.InsurancePaid := fun x hx => h x (List.mem_cons_of_mem _ hx)
    have h2 := totalPaid_nonneg hcs
    have h3 := ih hcs
    have hsum : totalPaid (c :: cs) = c.InsurancePaid + totalPaid cs := by
      simp [totalPaid]
    rw [hsum]
    constructor
    · intro h0
      have hc : c.InsurancePaid = 0 := by omega
      have ht : totalPaid cs = 0 := by omega
      intro x hx
      rcases List.mem_cons.mp hx with hx | hx
      · rw [hx]; exact hc
      · exact h3.mp ht x hx
    · intro hall
      have hc := hall c (List.mem_cons_self _ _)
      have ht := h3.mpr (fun x hx => hall x (List.mem_cons_of_mem _ hx))
      omega

/-- The zero-sum filter on a chart whose total fits `int64`. -/
theorem mapIndex_removeSumZero_of_range (env : GoEnv) (henv : env.Valid) (m : ChartMap)
    (hm : KeysNodup m) (k : String) (claims : List Claim) (hk : mapIndex m k = some claims)
    (hlo : -2 ^ 63 ≤ totalPaid claims) (hhi : totalPaid claims < 2 ^ 63) :
    mapIndex (removeSumZeroClaimRecords env m) k
      = if totalPaid claims > 0 then some claims else none := by
  rw [mapIndex_removeSumZeroClaimRecords env henv m hm k, hk]
  simp only [sumPaid_eq, wrapInt64_of_range hlo hhi]

/-- C8 (as amended): a chart whose true `InsurancePaid` total lies in the `int64`
range is retained by `removeSumZeroClaimRecords`, with its claim list unchanged,
exactly when that total is positive, and is removed exactly when the total is
zero or negative. -/
theorem removeSumZeroClaimRecords_spec (env : GoEnv) (henv : env.Valid) (m : ChartMap)
    (hm : KeysNodup m) (k : String) (claims : List Claim) (hk : mapIndex m k = some claims)
    (hlo : -2 ^ 63 ≤ totalPaid claims) (hhi : totalPaid claims < 2 ^ 63) :
    (mapIndex (removeSumZeroClaimRecords env m) k = some claims ↔ 0 < totalPaid claims) ∧
    (mapIndex (removeSumZeroClaimRecords env m) k = none ↔ totalPaid claims ≤ 0) := by
  rw [mapIndex_removeSumZero_of_range env henv m hm k claims hk hlo hhi]
  by_cases h : totalPaid claims > 0
  · rw [if_pos h]
    refine ⟨⟨fun _ => h, fun _ => rfl⟩, ⟨fun e => absurd e (by simp), fun e => ?_⟩⟩
    omega
  · rw [if_neg h]
    refine ⟨⟨fun e => absurd e (by simp), fun e => absurd e h⟩, ⟨fun _ => ?_, fun _ => rfl⟩⟩
    omega

/-- C8 (as amended) at chart `A` of `sampleMap`, whose claims paid 700 cents. -/
theorem removeSumZeroClaimRecords_spec_witness :
    insertionEnv.Valid ∧ KeysNodup sampleMap ∧ mapIndex sampleMap "A" = some chartA ∧
    -2 ^ 63 ≤ totalPaid chartA ∧ totalPaid chartA < 2 ^ 63 ∧
    ((mapIndex (removeSumZeroClaimRecords insertionEnv sampleMap) "A" = some chartA ↔
        0 < totalPaid chartA) ∧
     (mapIndex (removeSumZeroClaimRecords insertionEnv sampleMap) "A" = none ↔
        totalPaid chartA ≤ 0)) :=
  ⟨insertionEnv_valid, by decide, by decide, by decide, by decide,
    removeSumZeroClaimRecords_spec insertionEnv insertionEnv_valid sampleMap (by decide) "A"
      chartA (by decide) (by decide) (by decide)⟩

/-- C8 as stated fails: chart `O` has the positive total 2^63, and yet
`removeSumZeroClaimRecords` removes it, the `int64` sum having wrapped to -2^63. -/
theorem removeSumZeroClaimRecords_sum_counterexample :
    KeysNodup [("O", overflowChart)] ∧ mapIndex [("O", overflowChart)] "O" = some overflowChart ∧
    0 < totalPaid overflowChart ∧ sumPaid overflowChart = -2 ^ 63 ∧
    mapIndex (removeSumZeroClaimRecords insertionEnv [("O", overflowChart)]) "O" = none := by
  decide

/-- C10 (as amended): when no claim of a chart has a negative `InsurancePaid` and
their true total is below 2^63, the chart is absent from the output of
`removeSumZeroClaimRecords` if and only if every one of its claims has
`InsurancePaid = 0`. -/
theorem removeSumZeroClaimRecords_nonneg (env : GoEnv) (henv : env.Valid) (m : ChartMap)
    (hm : KeysNodup m) (k : String) (claims : List Claim) (hk : mapIndex m k = some claims)
    (hnn : ∀ c ∈ claims, 0 ≤ c.InsurancePaid) (hhi : totalPaid claims < 2 ^ 63) :
    mapIndex (removeSumZeroClaimRecords env m) k = none ↔
      ∀ c ∈ claims, c.InsurancePaid = 0 := by
  have h0 := totalPaid_nonneg hnn
  rw [mapIndex_removeSumZero_of_range env henv m hm k claims hk
    (le_trans (by norm_num) h0) hhi, ← totalPaid_eq_zero_iff hnn]
  by_cases h : totalPaid claims > 0
  · rw [if_pos h]
    exact ⟨fun e => absurd e (by simp), fun e => absurd e (by omega)⟩
  · rw [if_neg h]
    exact ⟨fun _ => by omega, fun _ => rfl⟩

/-- C10 (as amended) at chart `C` of `sampleMap`, whose claims paid nothing. -/
theorem removeSumZeroClaimRecords_nonneg_witness :
    insertionEnv.Valid ∧ KeysNodup sampleMap ∧ mapIndex sampleMap "C" = some chartC ∧
    (∀ c ∈ chartC, 0 ≤ c.InsurancePaid) ∧ totalPaid chartC < 2 ^ 63 ∧
    (mapIndex (removeSumZeroClaimRecords insertionEnv sampleMap) "C" = none ↔
      ∀ c ∈ chartC, c.InsurancePaid = 0) :=
  ⟨insertionEnv_valid, by decide, by decide, by decide, by decide,
    removeSumZeroClaimRecords_nonneg insertionEnv insertionEnv_valid sampleMap (by decide) "C"
      chartC (by decide) (by decide) (by decide)⟩

/-- C10 as stated fails: no claim of chart `P` is negative and one is not zero,
and yet `removeSumZeroClaimRecords` removes the chart, the `int64` sum of
2^63 - 1 and 1 having wrapped to -2^63. -/
theorem removeSumZeroClaimRecords_nonneg_counterexample :
    KeysNodup [("P", overflowChart2)] ∧ (∀ c ∈ overflowChart2, 0 ≤ c.InsurancePaid) ∧
    mapIndex (removeSumZeroClaimRecords insertionEnv [("P", overflowChart2)]) "P" = none ∧
    ¬ (∀ c ∈ overflowChart2, c.InsurancePaid = 0) := by
  decide

/-- C9: a chart with exactly one claim is absent from the output of
`removeSingleClaimRecords`, and from what `removeSumZeroClaimRecords` and then
`markDuplicatePayments` make of it, whatever the claim paid; and every chart in
each of the three outputs has at least two claims. -/
theorem single_claim_excluded (env : GoEnv) (henv : env.Valid) (m : ChartMap)
    (hm : KeysNodup m) :
    (∀ k c, mapIndex m k = some [c] →
      mapIndex (removeSingleClaimRecords env m) k = none ∧
      mapIndex (removeSumZeroClaimRecords env (removeSingleClaimRecords env m)) k = none ∧
      mapIndex (markDuplicatePayments env
        (removeSumZeroClaimRecords env (removeSingleClaimRecords env m))) k = none) ∧
    (∀ k v, mapIndex (removeSingleClaimRecords env m) k = some v → 2 ≤ v.length) ∧
    (∀ k v, mapIndex (removeSumZeroClaimRecords env (removeSingleClaimRecords env m)) k = some v →
      2 ≤ v.length) ∧
    (∀ k v, mapIndex (markDuplicatePayments env
        (removeSumZeroClaimRecords env (removeSingleClaimRecords env m))) k = some v →
      2 ≤ v.length) := by
  have hs := keysNodup_removeSingleClaimRecords env m
  have hz := keysNodup_removeSumZeroClaimRecords env (removeSingleClaimRecords env m)
  have h2 : ∀ k v, mapIndex (removeSingleClaimRecords env m) k = some v → 2 ≤ v.length := by
    intro k v hv
    rw [mapIndex_removeSingleClaimRecords env henv m hm k] at hv
    cases hx : mapIndex m k with
    | none => rw [hx] at hv; exact absurd hv (by simp)
    | some w =>
      rw [hx] at hv
      simp only at hv
      split at hv
      · rename_i hw
        rw [← Option.some.inj hv]; exact hw
      · exact absurd hv (by simp)
  have h3 : ∀ k v, mapIndex (removeSumZeroClaimRecords env (removeSingleClaimRecords env m)) k
      = some v → 2 ≤ v.length := by
    intro k v hv
    rw [mapIndex_removeSumZeroClaimRecords env henv _ hs k] at hv
    cases hx : mapIndex (removeSingleClaimRecords env m) k with
    | none => rw [hx] at hv; exact absurd hv (by simp)
    | some w =>
      rw [hx] at hv
      simp only at hv
      split at hv
      · rw [← Option.some.inj hv]; exact h2 k w hx
      · exact absurd hv (by simp)
  have h4 : ∀ k v, mapIndex (markDuplicatePayments env
      (removeSumZeroClaimRecords env (removeSingleClaimRecords env m))) k = some v →
      2 ≤ v.length := by
    intro k v hv
    rw [mapIndex_markDuplicatePayments env henv _ hz k] at hv
    cases hx : mapIndex (removeSumZeroClaimRecords env (removeSingleClaimRecords env m)) k with
    | none => rw [hx] at hv; exact absurd hv (by simp)
    | some w =>
      rw [hx] at hv
      have := Option.some.inj hv
      rw [← this, length_markChart env henv]
      exact h3 k w hx
  refine ⟨?_, h2, h3, h4⟩
  intro k c hk
  have e1 : mapIndex (removeSingleClaimRecords env m) k = none := by
    rw [mapIndex_removeSingleClaimRecords env henv m hm k, hk]
    simp
  have e2 : mapIndex (removeSumZeroClaimRecords env (removeSingleClaimRecords env m)) k = none := by
    rw [mapIndex_removeSumZeroClaimRecords env henv _ hs k, e1]
  have e3 : mapIndex (markDuplicatePayments env
      (removeSumZeroClaimRecords env (removeSingleClaimRecords env m))) k = none := by
    rw [mapIndex_markDuplicatePayments env henv _ hz k, e2]
    rfl
  exact ⟨e1, e2, e3⟩

/-- C9 at chart `B` of `sampleMap`, which has one claim. -/
theorem single_claim_excluded_witness :
    insertionEnv.Valid ∧ KeysNodup sampleMap ∧
    mapIndex sampleMap "B" = some [sampleClaim "B" "4" "01/02/2020" 700 false] ∧
    mapIndex (removeSingleClaimRecords insertionEnv sampleMap) "B" = none ∧
    mapIndex (removeSumZeroClaimRecords insertionEnv
      (removeSingleClaimRecords insertionEnv sampleMap)) "B" = none ∧
    mapIndex (markDuplicatePayments insertionEnv (removeSumZeroClaimRecords insertionEnv
      (removeSingleClaimRecords insertionEnv sampleMap))) "B" = none :=
  ⟨insertionEnv_valid, by decide, by decide,
    (single_claim_excluded insertionEnv insertionEnv_valid sampleMap (by decide)).1 "B"
      (sampleClaim "B" "4" "01/02/2020" 700 false) (by decide)⟩

theorem markDuplicatePayments_some (env : GoEnv) (henv : env.Valid) {m : ChartMap}
    (hm : KeysNodup m) {k : String} {out : List Claim}
    (hout : mapIndex (markDuplicatePayments env m) k = some out) :
    ∃ claims, mapIndex m k = some claims ∧ out = markChart env k claims := by
  rw [mapIndex_markDuplicatePayments env henv m hm k] at hout
  cases hx : mapIndex m k with
  | none => rw [hx] at hout; exact absurd hout (by simp)
  | some claims =>
    rw [hx] at hout
    exact ⟨claims, rfl, (Option.some.inj hout).symm⟩

theorem filter_map_clearDuplicate (q : Claim → Bool) (hq : ∀ c, q (clearDuplicate c) = q c)
    (l : List Claim) : (l.map clearDuplicate).filter q = (l.filter q).map clearDuplicate := by
  induction l with
  | nil => rfl
  | cons c cs ih =>
    by_cases h : q c = true
    · simp [List.filter_cons, hq, h, ih]
    · simp [List.filter_cons, hq, h, ih]

theorem map_paid_markFrom (i : Nat) (l : List Claim) :
    (markFrom i l).map (fun c => c.InsurancePaid) = l.map (fun c => c.InsurancePaid) := by
  have h := congrArg (List.map (fun c => c.InsurancePaid)) (map_clearDuplicate_markFrom i l)
  simpa [List.map_map, Function.comp_def, clearDuplicate] using h

/-- The claims of one date in a marked chart: a first claim as the sort left it,
then the others with `Duplicate = true`. -/
theorem filter_onDate_markChart_cons (env : GoEnv) (henv : env.Valid) (key : String)
    (claims : List Claim) (d : String) {x : Claim}
    (hx : x ∈ (markChart env key claims).filter (onDate d)) :
    ∃ h t, env.sortSlice paidGreater (claims.filter (onDate d)) = h :: t ∧
      (markChart env key claims).filter (onDate d)
        = h :: t.map (fun c => { c with Duplicate := true }) := by
  rw [markChart_filter_onDate env henv] at hx ⊢
  cases hs : env.sortSlice paidGreater (claims.filter (onDate d)) with
  | nil => rw [hs] at hx; simp [markFrom] at hx
  | cons h t => exact ⟨h, t, rfl, markFrom_zero_cons h t⟩

/-- C1 (as amended): when every claim enters `markDuplicatePayments` with
`Duplicate = false`, then in every chart of the output and for every
`DateOfServiceString` occurring in it with N claims, exactly N-1 of those claims
have `Duplicate = true` and exactly one has `Duplicate = false`. -/
theorem markDuplicatePayments_duplicate_count (env : GoEnv) (henv : env.Valid) (m : ChartMap)
    (hm : KeysNodup m) (hflag : Unflagged m) (k : String) (out : List Claim)
    (hout : mapIndex (markDuplicatePayments env m) k = some out) (d : String)
    (hd : ∃ c ∈ out, c.DateOfServiceString = d) :
    ((out.filter (onDate d)).filter (fun c => c.Duplicate)).length
        = (out.filter (onDate d)).length - 1 ∧
    ((out.filter (onDate d)).filter (fun c => !c.Duplicate)).length = 1 := by
  obtain ⟨claims, hin, rfl⟩ := markDuplicatePayments_some env henv hm hout
  obtain ⟨c, hc, hcd⟩ := hd
  have hmem : c ∈ (markChart env k claims).filter (onDate d) :=
    List.mem_filter.mpr ⟨hc, by simp [onDate, hcd]⟩
  obtain ⟨h, t, hs, hf⟩ := filter_onDate_markChart_cons env henv k claims d hmem
  have hh : h.Duplicate = false := by
    have h1 : h ∈ env.sortSlice paidGreater (claims.filter (onDate d)) := by
      rw [hs]; exact List.mem_cons_self _ _
    have h2 := (henv.sort_perm paidGreater _).mem_iff.mp h1
    exact hflag (k, claims) (mem_of_mapIndex hin) h (List.mem_filter.mp h2).1
  rw [hf]
  constructor
  · simp [List.filter_cons, hh, List.filter_map, Function.comp_def]
  · simp [List.filter_cons, hh, List.filter_map, Function.comp_def]

/-- C1 (as amended) at chart `A` of `sampleMap` and its one date. -/
theorem markDuplicatePayments_duplicate_count_witness :
    insertionEnv.Valid ∧ KeysNodup sampleMap ∧ Unflagged sampleMap ∧
    mapIndex (markDuplicatePayments insertionEnv sampleMap) "A"
      = some (markChart insertionEnv "A" chartA) ∧
    (∃ c ∈ markChart insertionEnv "A" chartA, c.DateOfServiceString = "01/02/2020") ∧
    ((((markChart insertionEnv "A" chartA).filter (onDate "01/02/2020")).filter
        (fun c => c.Duplicate)).length
        = ((markChart insertionEnv "A" chartA).filter (onDate "01/02/2020")).length - 1 ∧
     (((markChart insertionEnv "A" chartA).filter (onDate "01/02/2020")).filter
        (fun c => !c.Duplicate)).length = 1) :=
  ⟨insertionEnv_valid, by decide, by decide, by decide, by decide,
    markDuplicatePayments_duplicate_count insertionEnv insertionEnv_valid sampleMap (by decide)
      (by decide) "A" (markChart insertionEnv "A" chartA) (by decide) "01/02/2020" (by decide)⟩

/-- C1 as stated fails: chart `D` enters with one claim that carries
`Duplicate = true`; it leaves unchanged, so its one date has N = 1 claims, one of
them (not N-1 = 0) with `Duplicate = true` and none with `Duplicate = false`. -/
theorem markDuplicatePayments_duplicate_count_counterexample :
    KeysNodup [("D", flaggedChart)] ∧
    mapIndex (markDuplicatePayments insertionEnv [("D", flaggedChart)]) "D" = some flaggedChart ∧
    (flaggedChart.filter (onDate "01/02/2020")).length = 1 ∧
    ((flaggedChart.filter (onDate "01/02/2020")).filter (fun c => c.Duplicate)).length = 1 ∧
    ((flaggedChart.filter (onDate "01/02/2020")).filter (fun c => !c.Duplicate)).length = 0 := by
  decide

/-- C2: in every chart of the output of `markDuplicatePayments`, a claim whose
`Duplicate` is false has an `InsurancePaid` at least as great as that of every
claim of the same chart with the same `DateOfServiceString`. -/
theorem markDuplicatePayments_unflagged_max (env : GoEnv) (henv : env.Valid) (m : ChartMap)
    (hm : KeysNodup m) (k : String) (out : List Claim)
    (hout : mapIndex (markDuplicatePayments env m) k = some out)
    (c : Claim) (hc : c ∈ out) (hdup : c.Duplicate = false)
    (c' : Claim) (hc' : c' ∈ out) (hdate : c'.DateOfServiceString = c.DateOfServiceString) :
    c'.InsurancePaid ≤ c.InsurancePaid := by
  obtain ⟨claims, _, rfl⟩ := markDuplicatePayments_some env henv hm hout
  have hmem : c ∈ (markChart env k claims).filter (onDate c.DateOfServiceString) :=
    List.mem_filter.mpr ⟨hc, by simp [onDate]⟩
  have hmem' : c' ∈ (markChart env k claims).filter (onDate c.DateOfServiceString) :=
    List.mem_filter.mpr ⟨hc', by simp [onDate, hdate]⟩
  obtain ⟨h, t, hs, hf⟩ := filter_onDate_markChart_cons env henv k claims _ hmem
  rw [hf] at hmem hmem'
  have hsorted := henv.sort_sorted paidGreater strictWeak_paidGreater
    (claims.filter (onDate c.DateOfServiceString))
  rw [hs] at hsorted
  have hle : ∀ x ∈ t, x.InsurancePaid ≤ h.InsurancePaid := by
    intro x hx
    have := (List.pairwise_cons.mp hsorted).1 x hx
    simp only [paidGreater, decide_eq_false_iff_not] at this
    omega
  have hch : c = h := by
    rcases List.mem_cons.mp hmem with h1 | h1
    · exact h1
    · obtain ⟨x, _, hx⟩ := List.mem_map.mp h1
      rw [← hx] at hdup
      exact absurd hdup (by simp)
  rw [hch]
  rcases List.mem_cons.mp hmem' with h1 | h1
  · rw [h1]
  · obtain ⟨x, hxt, hx⟩ := List.mem_map.mp h1
    rw [← hx]
    exact hle x hxt

/-- C2 at chart `A` of `sampleMap`: the unflagged claim 2 against claim 1. -/
theorem markDuplicatePayments_unflagged_max_witness :
    insertionEnv.Valid ∧ KeysNodup sampleMap ∧
    mapIndex (markDuplicatePayments insertionEnv sampleMap) "A"
      = some (markChart insertionEnv "A" chartA) ∧
    sampleClaim "A" "2" "01/02/2020" 300 false ∈ markChart insertionEnv "A" chartA ∧
    sampleClaim "A" "1" "01/02/2020" 100 true ∈ markChart insertionEnv "A" chartA ∧
    (sampleClaim "A" "1" "01/02/2020" 100 true).InsurancePaid
      ≤ (sampleClaim "A" "2" "01/02/2020" 300 false).InsurancePaid :=
  ⟨insertionEnv_valid, by decide, by decide, by decide, by decide,
    markDuplicatePayments_unflagged_max insertionEnv insertionEnv_valid sampleMap (by decide)
      "A" (markChart insertionEnv "A" chartA) (by decide) (sampleClaim "A" "2" "01/02/2020" 300 false) (by decide) rfl
      (sampleClaim "A" "1" "01/02/2020" 100 true) (by decide) rfl⟩

/-- C3: `markDuplicatePayments` changes nothing but order and the `Duplicate`
flag: the output has exactly the keys of the input, and the list of every chart
is, once the `Duplicate` field is ignored, a permutation of the input list, of
the same length. -/
theorem markDuplicatePayments_frame (env : GoEnv) (henv : env.Valid) (m : ChartMap)
    (hm : KeysNodup m) (k : String) :
    (mapIndex (markDuplicatePayments env m) k = none ↔ mapIndex m k = none) ∧
    (∀ claims, mapIndex m k = some claims →
      ∃ out, mapIndex (markDuplicatePayments env m) k = some out ∧
        out.length = claims.length ∧
        (out.map clearDuplicate).Perm (claims.map clearDuplicate)) := by
  rw [mapIndex_markDuplicatePayments env henv m hm k]
  constructor
  · cases mapIndex m k <;> simp
  · intro claims hc
    rw [hc]
    exact ⟨markChart env k claims, rfl, length_markChart env henv k claims,
      markChart_perm env henv k claims⟩

/-- C3 at chart `A` of `sampleMap`. -/
theorem markDuplicatePayments_frame_witness :
    insertionEnv.Valid ∧ KeysNodup sampleMap ∧ mapIndex sampleMap "A" = some chartA ∧
    ∃ out, mapIndex (markDuplicatePayments insertionEnv sampleMap) "A" = some out ∧
      out.length = chartA.length ∧ (out.map clearDuplicate).Perm (chartA.map clearDuplicate) :=
  ⟨insertionEnv_valid, by decide, by decide,
    (markDuplicatePayments_frame insertionEnv insertionEnv_valid sampleMap (by decide) "A").2
      chartA (by decide)⟩

/-- C4: in every chart of the output of `markDuplicatePayments`, the claims
sharing one `DateOfServiceString` stand together as one contiguous run of the
list, and along that run `InsurancePaid` never increases, in whatever order the
date groups were concatenated. -/
theorem markDuplicatePayments_order (env : GoEnv) (henv : env.Valid) (m : ChartMap)
    (hm : KeysNodup m) (k : String) (out : List Claim)
    (hout : mapIndex (markDuplicatePayments env m) k = some out) (d : String) :
    out.filter (onDate d) <:+: out ∧
    (out.filter (onDate d)).Pairwise (fun x y => y.InsurancePaid ≤ x.InsurancePaid) := by
  obtain ⟨claims, _, rfl⟩ := markDuplicatePayments_some env henv hm hout
  refine ⟨markChart_filter_onDate_contiguous env henv k claims d, ?_⟩
  rw [markChart_filter_onDate env henv]
  have hsorted := henv.sort_sorted paidGreater strictWeak_paidGreater (claims.filter (onDate d))
  have h1 : (env.sortSlice paidGreater (claims.filter (onDate d))).Pairwise
      (fun x y => y.InsurancePaid ≤ x.InsurancePaid) := by
    refine hsorted.imp ?_
    intro a b hab
    simp only [paidGreater, decide_eq_false_iff_not] at hab
    omega
  have h2 : ((env.sortSlice paidGreater (claims.filter (onDate d))).map
      (fun c => c.InsurancePaid)).Pairwise (fun x y => y ≤ x) := List.pairwise_map.mpr h1
  rw [← map_paid_markFrom 0] at h2
  exact List.pairwise_map.mp h2

/-- C4 at chart `F`, whose two dates alternate in the input: the output is
`markedF`, in which the three claims of 01/02/2020 stand together, after the two
claims of the other date, and pay 300, 200 and 100 in that order. -/
theorem markDuplicatePayments_order_witness :
    insertionEnv.Valid ∧ KeysNodup [("F", chartF)] ∧
    mapIndex (markDuplicatePayments insertionEnv [("F", chartF)]) "F" = some markedF ∧
    markedF.filter (onDate "01/02/2020")
      = [sampleClaim "F" "3" "01/02/2020" 300 false, sampleClaim "F" "5" "01/02/2020" 200 true,
         sampleClaim "F" "1" "01/02/2020" 100 true] ∧
    (markedF.filter (onDate "01/02/2020") <:+: markedF ∧
      (markedF.filter (onDate "01/02/2020")).Pairwise
        (fun x y => y.InsurancePaid ≤ x.InsurancePaid)) :=
  ⟨insertionEnv_valid, by decide, by decide, by decide,
    markDuplicatePayments_order insertionEnv insertionEnv_valid [("F", chartF)] (by decide) "F"
      markedF (by decide) "01/02/2020"⟩

theorem paidIs_clearDuplicate (p : Int) (c : Claim) :
    paidIs p (clearDuplicate c) = paidIs p c := rfl

/-- C5 (as amended): when the runtime sorts slices of at most twelve elements by
insertion sort, as `sort.Slice` does, then within every date group of at most
twelve claims the claims with equal `InsurancePaid` appear in the output chart
in the same relative order as in the input list; for larger groups the order of
equal amounts is left open. -/
theorem markDuplicatePayments_stable_small (env : GoEnv) (henv : env.Valid)
    (hsmall : SmallInsertion env) (m : ChartMap) (hm : KeysNodup m) (k : String)
    (claims out : List Claim) (hin : mapIndex m k = some claims)
    (hout : mapIndex (markDuplicatePayments env m) k = some out) (d : String)
    (hsize : (claims.filter (onDate d)).length ≤ 12) (p : Int) :
    ((out.filter (onDate d)).filter (paidIs p)).map clearDuplicate
      = ((claims.filter (onDate d)).filter (paidIs p)).map clearDuplicate := by
  obtain ⟨claims', hin', rfl⟩ := markDuplicatePayments_some env henv hm hout
  rw [hin] at hin'
  obtain rfl := Option.some.inj hin'
  rw [markChart_filter_onDate env henv, ← filter_map_clearDuplicate _ (paidIs_clearDuplicate p),
    map_clearDuplicate_markFrom, filter_map_clearDuplicate _ (paidIs_clearDuplicate p),
    hsmall paidGreater _ hsize, insertionSort_func_whole]
  congr 1
  apply filter_insertionSortList
  intro a b ha hb
  simp only [paidIs, decide_eq_true_eq] at ha hb
  simp [paidGreater, ha, hb]

/-- C5 (as amended) at chart `A` of `sampleMap`: claims paying 100, 300 and 300
leave as the first 300 unflagged, the second 300 flagged, the 100 flagged. -/
theorem markDuplicatePayments_stable_small_witness :
    insertionEnv.Valid ∧ SmallInsertion insertionEnv ∧ KeysNodup sampleMap ∧
    mapIndex sampleMap "A" = some chartA ∧
    mapIndex (markDuplicatePayments insertionEnv sampleMap) "A"
      = some [sampleClaim "A" "2" "01/02/2020" 300 false,
          sampleClaim "A" "3" "01/02/2020" 300 true, sampleClaim "A" "1" "01/02/2020" 100 true] ∧
    (chartA.filter (onDate "01/02/2020")).length ≤ 12 ∧
    (([sampleClaim "A" "2" "01/02/2020" 300 false, sampleClaim "A" "3" "01/02/2020" 300 true,
        sampleClaim "A" "1" "01/02/2020" 100 true].filter (onDate "01/02/2020")).filter
          (paidIs 300)).map clearDuplicate
      = ((chartA.filter (onDate "01/02/2020")).filter (paidIs 300)).map clearDuplicate :=
  ⟨insertionEnv_valid, insertionEnv_smallInsertion, by decide, by decide, by decide, by decide,
    markDuplicatePayments_stable_small insertionEnv insertionEnv_valid
      insertionEnv_smallInsertion sampleMap (by decide) "A" chartA _ (by decide) (by decide)
      "01/02/2020" (by decide) 300⟩

/-- C5 as stated fails: chart `E` has thirteen claims of one date, the first
paying 100 and the others 300.  `sort.Slice` takes the claim in the middle
(number 6) as its pivot and swaps it to the front; what it returns is a
permutation of the slice in descending order of `InsurancePaid`, as its contract
demands, but the output lists claim 6 ahead of claims 1 to 5 that paid the same
and stood before it in the input, and claim 6, not claim 1, is the one left with
`Duplicate = false`. -/
theorem markDuplicatePayments_stable_counterexample :
    (goSortSlice paidGreater chartE).Perm chartE ∧
    (goSortSlice paidGreater chartE).Pairwise (fun a b => paidGreater b a = false) ∧
    ((markChart goEnv "E" chartE).map (fun c => (c.ClaimNo, c.InsurancePaid, c.Duplicate))
      = [("6", 300, false), ("1", 300, true), ("2", 300, true), ("3", 300, true),
         ("4", 300, true), ("5", 300, true), ("7", 300, true), ("8", 300, true),
         ("9", 300, true), ("10", 300, true), ("11", 300, true), ("12", 300, true),
         ("0", 100, true)]) ∧
    mapIndex (markDuplicatePayments goEnv [("E", chartE)]) "E" = some (markChart goEnv "E" chartE) ∧
    (((markChart goEnv "E" chartE).filter (onDate "01/02/2020")).filter (paidIs 300)).map
        clearDuplicate
      ≠ ((chartE.filter (onDate "01/02/2020")).filter (paidIs 300)).map clearDuplicate := by
  decide

theorem buildClaim_duplicate {value : List String} {c : Claim} (h : buildClaim value = some c) :
    c.Duplicate = false := by
  unfold buildClaim at h
  iterate 13 ((try rw [Option.bind_eq_bind] at h); obtain ⟨_, _, h⟩ := Option.bind_eq_some.mp h)
  have h1 := Option.some.inj h
  rw [← h1]

theorem unflagged_mapAssign {m : ChartMap} (hm : Unflagged m) {k : String} {v : List Claim}
    (hv : ∀ c ∈ v, c.Duplicate = false) : Unflagged (mapAssign m k v) := by
  intro e he c hc
  rcases mem_mapAssign he with h | h
  · rw [h] at hc; exact hv c hc
  · exact hm e h c hc

theorem unflagged_of_mapIndex {m : ChartMap} (hm : Unflagged m) {k : String} {v : List Claim}
    (h : mapIndex m k = some v) : ∀ c ∈ v, c.Duplicate = false :=
  fun c hc => hm (k, v) (mem_of_mapIndex h) c hc

theorem parseStep_invariant (env : GoEnv) (henv : env.Valid) {charts charts1 : ChartMap}
    {value : List String} (h : parseStep env charts value = some charts1)
    (hnd : KeysNodup charts) (hfl : Unflagged charts) :
    KeysNodup charts1 ∧ Unflagged charts1 := by
  unfold parseStep at h
  simp only [Option.bind_eq_bind, Option.bind_eq_some, Option.pure_def, Option.some.injEq] at h
  obtain ⟨chartNo, _, claim, hclaim, rfl⟩ := h
  refine ⟨keysNodup_mapAssign hnd _ _, unflagged_mapAssign hfl ?_⟩
  intro c hc
  have h1 := (henv.sort_perm dateBefore _).mem_iff.mp hc
  rcases List.mem_append.mp h1 with h2 | h2
  · cases hx : mapIndex charts chartNo with
    | none => rw [hx] at h2; simp at h2
    | some v => rw [hx] at h2; exact unflagged_of_mapIndex hfl hx c (by simpa using h2)
  · have : c = claim := by simpa using h2
    rw [this]
    exact buildClaim_duplicate hclaim

theorem parseLoop_invariant (env : GoEnv) (henv : env.Valid) (records : List (List String))
    {charts out : ChartMap} (h : parseLoop env charts records = some out)
    (hnd : KeysNodup charts) (hfl : Unflagged charts) : KeysNodup out ∧ Unflagged out := by
  induction records generalizing charts with
  | nil =>
    simp only [parseLoop, Option.some.injEq] at h
    rw [← h]; exact ⟨hnd, hfl⟩
  | cons value rest ih =>
    simp only [parseLoop] at h
    cases hs : parseStep env charts value with
    | none => rw [hs] at h; exact absurd h (by simp)
    | some charts1 =>
      rw [hs] at h
      obtain ⟨h1, h2⟩ := parseStep_invariant env henv hs hnd hfl
      exact ih h h1 h2

theorem parseRecords_invariant (env : GoEnv) (henv : env.Valid) {records : List (List String)}
    {out : ChartMap} (h : parseRecords env records = some out) :
    KeysNodup out ∧ Unflagged out :=
  parseLoop_invariant env henv records h (by simp [KeysNodup]) (by intro e he; simp at he)

theorem unflagged_removeSingleClaimRecords (env : GoEnv) (henv : env.Valid) {m : ChartMap}
    (hm : KeysNodup m) (hfl : Unflagged m) : Unflagged (removeSingleClaimRecords env m) := by
  intro e he c hc
  have h1 := mapIndex_of_mem (keysNodup_removeSingleClaimRecords env m) he
  rw [mapIndex_removeSingleClaimRecords env henv m hm] at h1
  cases hx : mapIndex m e.1 with
  | none => rw [hx] at h1; exact absurd h1 (by simp)
  | some w =>
    rw [hx] at h1
    simp only at h1
    split at h1
    · rw [Option.some.inj h1] at hx
      exact unflagged_of_mapIndex hfl hx c hc
    · exact absurd h1 (by simp)

theorem unflagged_removeSumZeroClaimRecords (env : GoEnv) (henv : env.Valid) {m : ChartMap}
    (hm : KeysNodup m) (hfl : Unflagged m) : Unflagged (removeSumZeroClaimRecords env m) := by
  intro e he c hc
  have h1 := mapIndex_of_mem (keysNodup_removeSumZeroClaimRecords env m) he
  rw [mapIndex_removeSumZeroClaimRecords env henv m hm] at h1
  cases hx : mapIndex m e.1 with
  | none => rw [hx] at h1; exact absurd h1 (by simp)
  | some w =>
    rw [hx] at h1
    simp only at h1
    split at h1
    · rw [Option.some.inj h1] at hx
      exact unflagged_of_mapIndex hfl hx c hc
    · exact absurd h1 (by simp)

/-- The claims of one date in a marked chart: a first claim, taken unchanged from
the input and paid at least as much as the others, then the others with
`Duplicate = true`. -/
theorem markChart_group (env : GoEnv) (henv : env.Valid) (key : String)
    (claims : List Claim) (d : String) {x : Claim}
    (hx : x ∈ (markChart env key claims).filter (onDate d)) :
    ∃ (h : Claim) (t : List Claim), (markChart env key claims).filter (onDate d)
        = h :: t.map (fun c => { c with Duplicate := true }) ∧
      h ∈ claims ∧ ∀ y ∈ t, y.InsurancePaid ≤ h.InsurancePaid := by
  obtain ⟨h, t, hs, hf⟩ := filter_onDate_markChart_cons env henv key claims d hx
  refine ⟨h, t, hf, ?_, ?_⟩
  · have h1 : h ∈ env.sortSlice paidGreater (claims.filter (onDate d)) := by
      rw [hs]; exact List.mem_cons_self _ _
    exact (List.mem_filter.mp ((henv.sort_perm paidGreater _).mem_iff.mp h1)).1
  · have hsorted := henv.sort_sorted paidGreater strictWeak_paidGreater
      (claims.filter (onDate d))
    rw [hs] at hsorted
    intro y hy
    have := (List.pairwise_cons.mp hsorted).1 y hy
    simp only [paidGreater, decide_eq_false_iff_not] at this
    omega

/-- C6: for every list of rows on which `parseRecords` succeeds, in the mapping
that the three later stages make of its result every chart has, for every
service date occurring in it, exactly one claim with `Duplicate = false`, and
no claim of that chart and date paid more than that one. -/
theorem pipeline_duplicate_marking (env : GoEnv) (henv : env.Valid)
    (records : List (List String)) (charts : ChartMap)
    (hparse : parseRecords env records = some charts) (k : String) (out : List Claim)
    (hout : mapIndex (markDuplicatePayments env
      (removeSumZeroClaimRecords env (removeSingleClaimRecords env charts))) k = some out)
    (d : String) (hd : ∃ c ∈ out, c.DateOfServiceString = d) :
    ∃ c0, (out.filter (onDate d)).filter (fun c => !c.Duplicate) = [c0] ∧
      ∀ c ∈ out, c.DateOfServiceString = d → c.InsurancePaid ≤ c0.InsurancePaid := by
  obtain ⟨hnd, hfl⟩ := parseRecords_invariant env henv hparse
  have hfl1 := unflagged_removeSingleClaimRecords env henv hnd hfl
  have hnd1 := keysNodup_removeSingleClaimRecords env charts
  have hfl2 := unflagged_removeSumZeroClaimRecords env henv hnd1 hfl1
  have hnd2 := keysNodup_removeSumZeroClaimRecords env (removeSingleClaimRecords env charts)
  obtain ⟨claims, hin, rfl⟩ := markDuplicatePayments_some env henv hnd2 hout
  obtain ⟨c, hc, hcd⟩ := hd
  have hmem : c ∈ (markChart env k claims).filter (onDate d) :=
    List.mem_filter.mpr ⟨hc, by simp [onDate, hcd]⟩
  obtain ⟨h, t, hf, hh, hle⟩ := markChart_group env henv k claims d hmem
  have hdup : h.Duplicate = false := unflagged_of_mapIndex hfl2 hin h hh
  refine ⟨h, ?_, ?_⟩
  · rw [hf]
    simp [List.filter_cons, hdup, List.filter_map, Function.comp_def]
  · intro x hx hxd
    have hx' : x ∈ (markChart env k claims).filter (onDate d) :=
      List.mem_filter.mpr ⟨hx, by simp [onDate, hxd]⟩
    rw [hf] at hx'
    rcases List.mem_cons.mp hx' with h1 | h1
    · rw [h1]
    · obtain ⟨y, hyt, hy⟩ := List.mem_map.mp h1
      rw [← hy]
      exact hle y hyt

/-- C6 at the two rows of chart `A1`: the chart survives with both claims, the
one that paid 50.00 unflagged and the one that paid 0.00 flagged. -/
theorem pipeline_duplicate_marking_witness :
    insertionEnv.Valid ∧
    parseRecords insertionEnv rowsA1
      = some [("A1", [claimA1 "1" "50.00" 5000 false, claimA1 "2" "0.00" 0 false])] ∧
    mapIndex (markDuplicatePayments insertionEnv (removeSumZeroClaimRecords insertionEnv
        (removeSingleClaimRecords insertionEnv
          [("A1", [claimA1 "1" "50.00" 5000 false, claimA1 "2" "0.00" 0 false])]))) "A1"
      = some [claimA1 "1" "50.00" 5000 false, claimA1 "2" "0.00" 0 true] ∧
    (∃ c0, ([claimA1 "1" "50.00" 5000 false, claimA1 "2" "0.00" 0 true].filter
          (onDate "01/02/2020")).filter (fun c => !c.Duplicate) = [c0] ∧
      ∀ c ∈ [claimA1 "1" "50.00" 5000 false, claimA1 "2" "0.00" 0 true],
        c.DateOfServiceString = "01/02/2020" → c.InsurancePaid ≤ c0.InsurancePaid) :=
  ⟨insertionEnv_valid, by decide, by decide,
    pipeline_duplicate_marking insertionEnv insertionEnv_valid rowsA1
      [("A1", [claimA1 "1" "50.00" 5000 false, claimA1 "2" "0.00" 0 false])] (by decide) "A1"
      [claimA1 "1" "50.00" 5000 false, claimA1 "2" "0.00" 0 true] (by decide) "01/02/2020"
      (by decide)⟩

/-! ## The record parser -/

theorem option_bind_some {α β : Type} {x : Option α} {f : α → Option β} {b : β}
    (h : (x >>= f) = some b) : ∃ a, x = some a ∧ f a = some b :=
  Option.bind_eq_some.mp h

/-- What a successful `buildClaim` says about the row and the claim. -/
theorem buildClaim_fields {value : List String} {c : Claim} (h : buildClaim value = some c) :
    value[0]? = some c.ChartNumber ∧ value[4]? = some c.CaseNumber ∧
    value[5]? = some c.ClaimNo ∧
    (∃ v6, value[6]? = some v6 ∧ parseDate v6 = some c.DateOfService ∧
      c.DateOfServiceString = timeFormat c.DateOfService) ∧
    (∃ v10, value[10]? = some v10 ∧ moneyStringToInt v10 = some c.InsurancePaid ∧
      c.InsurancePaidString = removeAll '-' v10) ∧
    value[11]? = some c.InsuranceName ∧
    (∃ v12, value[12]? = some v12 ∧ moneyStringToInt v12 = some c.AdjustmentAmount ∧
      c.AdjustmentAmountString = removeAll '-' v12) ∧
    value[14]? = some c.Facility ∧ value[15]? = some c.Sheet ∧ c.Duplicate = false := by
  unfold buildClaim at h
  obtain ⟨v0, h0, h⟩ := option_bind_some h
  obtain ⟨v4, h4, h⟩ := option_bind_some h
  obtain ⟨v5, h5, h⟩ := option_bind_some h
  obtain ⟨v6, h6, h⟩ := option_bind_some h
  obtain ⟨t, ht, h⟩ := option_bind_some h
  obtain ⟨ds, hds, h⟩ := option_bind_some h
  obtain ⟨v10, h10, h⟩ := option_bind_some h
  obtain ⟨p, hp, h⟩ := option_bind_some h
  obtain ⟨v11, h11, h⟩ := option_bind_some h
  obtain ⟨v12, h12, h⟩ := option_bind_some h
  obtain ⟨a, ha, h⟩ := option_bind_some h
  obtain ⟨v14, h14, h⟩ := option_bind_some h
  obtain ⟨v15, h15, h⟩ := option_bind_some h
  have hc := Option.some.inj h
  have hds' : ds = timeFormat t := by
    unfold formatDateString at hds
    rw [ht] at hds
    exact (Option.some.inj hds).symm
  subst hc
  exact ⟨h0, h4, h5, ⟨v6, h6, ht, hds'⟩, ⟨v10, h10, hp, rfl⟩, h11, ⟨v12, h12, ha, rfl⟩, h14, h15,
    rfl⟩

/-- The claim `buildClaim` makes of a row whose fields are there and parse. -/
theorem buildClaim_of_fields {value : List String} {v0 v4 v5 v6 v10 v11 v12 v14 v15 : String}
    {t : Time} {p a : Int}
    (h0 : value[0]? = some v0) (h4 : value[4]? = some v4) (h5 : value[5]? = some v5)
    (h6 : value[6]? = some v6) (ht : parseDate v6 = some t)
    (h10 : value[10]? = some v10) (hp : moneyStringToInt v10 = some p)
    (h11 : value[11]? = some v11) (h12 : value[12]? = some v12)
    (ha : moneyStringToInt v12 = some a) (h14 : value[14]? = some v14)
    (h15 : value[15]? = some v15) :
    buildClaim value = some
      { ChartNumber := v0, CaseNumber := v4, ClaimNo := v5, DateOfService := t,
        DateOfServiceString := timeFormat t, InsurancePaid := p,
        InsurancePaidString := removeAll '-' v10, InsuranceName := v11,
        AdjustmentAmount := a, AdjustmentAmountString := removeAll '-' v12,
        Facility := v14, Sheet := v15, Duplicate := false } := by
  unfold buildClaim formatDateString
  rw [h0, h4, h5, h6, h10, h11, h12, h14, h15]
  show (parseDate v6 >>= fun dateOfService => (parseDate v6).map timeFormat >>= fun ds =>
    moneyStringToInt v10 >>= fun insurancePaid => moneyStringToInt v12 >>= fun adj => _) = _
  rw [ht, hp, ha]
  rfl

theorem parseStep_of_buildClaim (env : GoEnv) (charts : ChartMap) {value : List String}
    {claim : Claim} (h : buildClaim value = some claim) :
    parseStep env charts value = some (mapAssign charts claim.ChartNumber
      (env.sortSlice dateBefore ((mapIndex charts claim.ChartNumber).getD [] ++ [claim]))) := by
  unfold parseStep
  rw [(buildClaim_fields h).1, h]
  rfl

theorem parseStep_none (env : GoEnv) (charts : ChartMap) {value : List String}
    (h : buildClaim value = none) : parseStep env charts value = none := by
  unfold parseStep
  rw [h]
  cases value[0]? <;> rfl

theorem parseStep_eq_some {env : GoEnv} {charts out : ChartMap} {value : List String}
    (h : parseStep env charts value = some out) :
    ∃ claim, buildClaim value = some claim ∧
      out = mapAssign charts claim.ChartNumber
        (env.sortSlice dateBefore ((mapIndex charts claim.ChartNumber).getD [] ++ [claim])) := by
  cases hb : buildClaim value with
  | none => rw [parseStep_none env charts hb] at h; exact absurd h (by simp)
  | some claim =>
    rw [parseStep_of_buildClaim env charts hb] at h
    exact ⟨claim, rfl, (Option.some.inj h).symm⟩

theorem parseLoop_cons_some {env : GoEnv} {charts out : ChartMap} {value : List String}
    {rest : List (List String)} (h : parseLoop env charts (value :: rest) = some out) :
    ∃ claim, buildClaim value = some claim ∧
      parseLoop env (mapAssign charts claim.ChartNumber
        (env.sortSlice dateBefore ((mapIndex charts claim.ChartNumber).getD [] ++ [claim])))
        rest = some out := by
  simp only [parseLoop] at h
  cases hs : parseStep env charts value with
  | none => rw [hs] at h; exact absurd h (by simp)
  | some charts1 =>
    rw [hs] at h
    obtain ⟨claim, hb, rfl⟩ := parseStep_eq_some hs
    exact ⟨claim, hb, h⟩

theorem rowClaims_cons (k : String) (value : List String) (rest : List (List String))
    {claim : Claim} (hb : buildClaim value = some claim) :
    rowClaims k (value :: rest)
      = if claim.ChartNumber = k then claim :: rowClaims k rest else rowClaims k rest := by
  unfold rowClaims
  rw [List.filterMap_cons]
  rw [(buildClaim_fields hb).1]
  by_cases hk : claim.ChartNumber = k
  · simp [hk, hb]
  · simp [hk]

/-- The list `parseRecords` keeps under `k` holds the claims it had plus the
claims of the rows of chart `k`. -/
theorem parseLoop_perm (env : GoEnv) (henv : env.Valid) (records : List (List String))
    {charts out : ChartMap} (h : parseLoop env charts records = some out) (k : String) :
    ((mapIndex out k).getD []).Perm ((mapIndex charts k).getD [] ++ rowClaims k records) := by
  induction records generalizing charts with
  | nil =>
    simp only [parseLoop, Option.some.injEq] at h
    subst h
    simp [rowClaims]
  | cons value rest ih =>
    obtain ⟨claim, hb, hrest⟩ := parseLoop_cons_some h
    refine (ih hrest).trans ?_
    rw [rowClaims_cons k value rest hb]
    by_cases hk : claim.ChartNumber = k
    · subst hk
      rw [mapIndex_mapAssign_self, if_pos rfl]
      simp only [Option.getD_some]
      refine ((henv.sort_perm dateBefore _).append_right _).trans ?_
      simp
    · rw [mapIndex_mapAssign_ne _ _ hk, if_neg hk]

theorem parseLoop_none_iff (env : GoEnv) (records : List (List String))
    {charts out : ChartMap} (h : parseLoop env charts records = some out) (k : String) :
    mapIndex out k = none ↔ mapIndex charts k = none ∧ ∀ r ∈ records, r[0]? ≠ some k := by
  induction records generalizing charts with
  | nil =>
    simp only [parseLoop, Option.some.injEq] at h
    subst h
    simp
  | cons value rest ih =>
    obtain ⟨claim, hb, hrest⟩ := parseLoop_cons_some h
    rw [ih hrest]
    have h0 := (buildClaim_fields hb).1
    by_cases hk : claim.ChartNumber = k
    · subst hk
      rw [mapIndex_mapAssign_self]
      constructor
      · intro e; exact absurd e.1 (by simp)
      · intro e; exact absurd h0 (e.2 value (List.mem_cons_self _ _))
    · rw [mapIndex_mapAssign_ne _ _ hk]
      constructor
      · rintro ⟨e1, e2⟩
        refine ⟨e1, ?_⟩
        intro r hr
        rcases List.mem_cons.mp hr with h1 | h1
        · rw [h1, h0]
          intro e; exact hk (Option.some.inj e)
        · exact e2 r h1
      · rintro ⟨e1, e2⟩
        exact ⟨e1, fun r hr => e2 r (List.mem_cons_of_mem _ hr)⟩

theorem parseLoop_rows_build (env : GoEnv) (records : List (List String))
    {charts out : ChartMap} (h : parseLoop env charts records = some out) :
    ∀ r ∈ records, ∃ c, buildClaim r = some c := by
  induction records generalizing charts with
  | nil => intro r hr; simp at hr
  | cons value rest ih =>
    obtain ⟨claim, hb, hrest⟩ := parseLoop_cons_some h
    intro r hr
    rcases List.mem_cons.mp hr with h1 | h1
    · rw [h1]; exact ⟨claim, hb⟩
    · exact ih hrest r h1

theorem parseLoop_of_rows_build (env : GoEnv) (records : List (List String))
    (charts : ChartMap) (h : ∀ r ∈ records, ∃ c, buildClaim r = some c) :
    ∃ out, parseLoop env charts records = some out := by
  induction records generalizing charts with
  | nil => exact ⟨charts, rfl⟩
  | cons value rest ih =>
    obtain ⟨claim, hb⟩ := h value (List.mem_cons_self _ _)
    simp only [parseLoop]
    rw [parseStep_of_buildClaim env charts hb]
    exact ih _ (fun r hr => h r (List.mem_cons_of_mem _ hr))

/-- Every list of a mapping is in ascending order of `DateOfService`. -/
theorem parseLoop_sorted (env : GoEnv) (henv : env.Valid) (records : List (List String))
    {charts out : ChartMap} (h : parseLoop env charts records = some out)
    (hs : ∀ e ∈ charts, e.2.Pairwise (fun a b => dateBefore b a = false)) :
    ∀ e ∈ out, e.2.Pairwise (fun a b => dateBefore b a = false) := by
  induction records generalizing charts with
  | nil =>
    simp only [parseLoop, Option.some.injEq] at h
    subst h
    exact hs
  | cons value rest ih =>
    obtain ⟨claim, _, hrest⟩ := parseLoop_cons_some h
    apply ih hrest
    intro e he
    rcases mem_mapAssign he with h1 | h1
    · rw [h1]
      exact henv.sort_sorted dateBefore strictWeak_dateBefore _
    · exact hs e h1

/-- C11: for every list of rows on which `parseRecords` succeeds, the claims of
every chart of the result are in ascending (non-decreasing) order of
`DateOfService`: no claim is dated before a claim that precedes it. -/
theorem parseRecords_sorted (env : GoEnv) (henv : env.Valid) (records : List (List String))
    (out : ChartMap) (h : parseRecords env records = some out) (k : String)
    (claims : List Claim) (hk : mapIndex out k = some claims) :
    claims.Pairwise (fun a b => b.DateOfService.Before a.DateOfService = false) :=
  parseLoop_sorted env henv records h (by intro e he; simp at he) (k, claims) (mem_of_mapIndex hk)

/-- C11 at `rowsMixed`, where chart `A1` comes with the later date first. -/
theorem parseRecords_sorted_witness :
    insertionEnv.Valid ∧ parseRecords insertionEnv rowsMixed = some parsedMixed ∧
    mapIndex parsedMixed "A1"
      = some [sampleParsed "A1" "3" { year := 2020, month := 1, day := 2 } "01/02/2020" "0.00" 0,
          sampleParsed "A1" "1" { year := 2020, month := 1, day := 3 } "01/03/2020" "50.00" 5000] ∧
    [sampleParsed "A1" "3" { year := 2020, month := 1, day := 2 } "01/02/2020" "0.00" 0,
      sampleParsed "A1" "1" { year := 2020, month := 1, day := 3 } "01/03/2020" "50.00"
        5000].Pairwise (fun a b => b.DateOfService.Before a.DateOfService = false) :=
  ⟨insertionEnv_valid, by decide, by decide,
    parseRecords_sorted insertionEnv insertionEnv_valid rowsMixed parsedMixed (by decide) "A1"
      _ (by decide)⟩

theorem buildClaim_some_iff (r : List String) :
    (∃ c, buildClaim r = some c) ↔ RowParses r := by
  constructor
  · rintro ⟨c, hc⟩
    obtain ⟨_, _, _, ⟨v6, h6, ht, _⟩, ⟨v10, h10, hp, _⟩, _, ⟨v12, h12, ha, _⟩, _, h15, _⟩ :=
      buildClaim_fields hc
    refine ⟨?_, ⟨v6, _, h6, ht⟩, ⟨v10, _, h10, hp⟩, ⟨v12, _, h12, ha⟩⟩
    have := (List.getElem?_eq_some.mp h15).1
    omega
  · rintro ⟨hlen, ⟨v6, t, h6, ht⟩, ⟨v10, p, h10, hp⟩, ⟨v12, a, h12, ha⟩⟩
    have g : ∀ i, i < 16 → ∃ v, r[i]? = some v := by
      intro i hi
      exact ⟨r[i], List.getElem?_eq_getElem (by omega)⟩
    obtain ⟨v0, h0⟩ := g 0 (by omega)
    obtain ⟨v4, h4⟩ := g 4 (by omega)
    obtain ⟨v5, h5⟩ := g 5 (by omega)
    obtain ⟨v11, h11⟩ := g 11 (by omega)
    obtain ⟨v14, h14⟩ := g 14 (by omega)
    obtain ⟨v15, h15⟩ := g 15 (by omega)
    exact ⟨_, buildClaim_of_fields h0 h4 h5 h6 ht h10 hp h11 h12 ha h14 h15⟩

theorem rowClaims_length (k : String) (records : List (List String))
    (h : ∀ r ∈ records, ∃ c, buildClaim r = some c) :
    (rowClaims k records).length
      = (records.filter (fun r => decide (r[0]? = some k))).length := by
  induction records with
  | nil => rfl
  | cons value rest ih =>
    obtain ⟨claim, hb⟩ := h value (List.mem_cons_self _ _)
    have ih' := ih (fun r hr => h r (List.mem_cons_of_mem _ hr))
    rw [rowClaims_cons k value rest hb, List.filter_cons, (buildClaim_fields hb).1]
    by_cases hk : claim.ChartNumber = k
    · simp [hk, ih']
    · simp [hk, ih']

theorem mem_rowClaims {k : String} {records : List (List String)} {c : Claim}
    (h : c ∈ rowClaims k records) : c.ChartNumber = k ∧ ∃ r ∈ records, buildClaim r = some c := by
  unfold rowClaims at h
  obtain ⟨r, hr, hc⟩ := List.mem_filterMap.mp h
  split at hc
  · rename_i h0
    have := (buildClaim_fields hc).1
    rw [h0] at this
    exact ⟨(Option.some.inj this).symm, r, hr, hc⟩
  · exact absurd hc (by simp)

theorem claimCount_mapAssign (m : ChartMap) (k : String) (v : List Claim) :
    claimCount (mapAssign m k v) + ((mapIndex m k).getD []).length = claimCount m + v.length := by
  induction m with
  | nil => simp [claimCount, mapAssign, mapIndex]
  | cons e rest ih =>
    by_cases h : e.1 = k
    · simp only [mapAssign, mapIndex, h, if_true, claimCount, List.map_cons, List.sum_cons,
        Option.getD_some]
      omega
    · simp only [mapAssign, mapIndex, h, if_false, claimCount, List.map_cons, List.sum_cons]
      simp only [claimCount] at ih
      omega

theorem parseLoop_claimCount (env : GoEnv) (henv : env.Valid) (records : List (List String))
    {charts out : ChartMap} (h : parseLoop env charts records = some out) :
    claimCount out = claimCount charts + records.length := by
  induction records generalizing charts with
  | nil =>
    simp only [parseLoop, Option.some.injEq] at h
    subst h
    rfl
  | cons value rest ih =>
    obtain ⟨claim, _, hrest⟩ := parseLoop_cons_some h
    rw [ih hrest]
    have h1 := claimCount_mapAssign charts claim.ChartNumber
      (env.sortSlice dateBefore ((mapIndex charts claim.ChartNumber).getD [] ++ [claim]))
    have h2 := (henv.sort_perm dateBefore
      ((mapIndex charts claim.ChartNumber).getD [] ++ [claim])).length_eq
    generalize (mapIndex charts claim.ChartNumber).getD [] = old at h1 h2
    rw [List.length_append, List.length_singleton] at h2
    rw [List.length_cons]
    omega

/-- C13: for every list of rows on which `parseRecords` succeeds, the keys of
the result are pairwise distinct and are exactly the values of field 0 of the
rows; the list kept under `k` has exactly as many claims as there are rows whose
field 0 equals `k` (a chart with a single row is present with its one claim),
and every claim in it has `ChartNumber = k`; the result holds as many claims as
there are rows. -/
theorem parseRecords_groups (env : GoEnv) (henv : env.Valid) (records : List (List String))
    (out : ChartMap) (h : parseRecords env records = some out) :
    KeysNodup out ∧
    (∀ k, mapIndex out k ≠ none ↔ ∃ r ∈ records, r[0]? = some k) ∧
    (∀ k claims, mapIndex out k = some claims →
      claims.length = (records.filter (fun r => decide (r[0]? = some k))).length ∧
      ∀ c ∈ claims, c.ChartNumber = k) ∧
    claimCount out = records.length := by
  refine ⟨(parseRecords_invariant env henv h).1, ?_, ?_, ?_⟩
  · intro k
    rw [Ne, parseLoop_none_iff env records h k]
    simp [mapIndex]
  · intro k claims hk
    have hp := parseLoop_perm env henv records h k
    rw [hk] at hp
    simp only [Option.getD_some, mapIndex, Option.getD_none, List.nil_append] at hp
    constructor
    · rw [hp.length_eq, rowClaims_length k records (parseLoop_rows_build env records h)]
    · intro c hc
      exact (mem_rowClaims (hp.mem_iff.mp hc)).1
  · have := parseLoop_claimCount env henv records h
    simpa [claimCount] using this

/-- C13 at `rowsMixed`: chart `B7` has one row and is kept with one claim. -/
theorem parseRecords_groups_witness :
    insertionEnv.Valid ∧ parseRecords insertionEnv rowsMixed = some parsedMixed ∧
    (mapIndex parsedMixed "B7" ≠ none ↔ ∃ r ∈ rowsMixed, r[0]? = some "B7") ∧
    claimCount parsedMixed = rowsMixed.length :=
  ⟨insertionEnv_valid, by decide,
    (parseRecords_groups insertionEnv insertionEnv_valid rowsMixed parsedMixed (by decide)).2.1
      "B7",
    (parseRecords_groups insertionEnv insertionEnv_valid rowsMixed parsedMixed (by decide)).2.2.2⟩

/-- C14: `parseRecords` produces a mapping if and only if every row has at least
sixteen fields, field 6 of every row parses as a date and fields 10 and 12 of
every row parse as amounts; otherwise the whole call panics and nothing is
returned; and a mapping that is returned holds one claim for every row. -/
theorem parseRecords_succeeds_iff (env : GoEnv) (henv : env.Valid)
    (records : List (List String)) :
    ((∃ out, parseRecords env records = some out) ↔ ∀ r ∈ records, RowParses r) ∧
    (¬ (∀ r ∈ records, RowParses r) → parseRecords env records = none) ∧
    (∀ out, parseRecords env records = some out → claimCount out = records.length) := by
  have hiff : (∃ out, parseRecords env records = some out) ↔ ∀ r ∈ records, RowParses r := by
    constructor
    · rintro ⟨out, h⟩ r hr
      exact (buildClaim_some_iff r).mp (parseLoop_rows_build env records h r hr)
    · intro hall
      exact parseLoop_of_rows_build env records []
        (fun r hr => (buildClaim_some_iff r).mpr (hall r hr))
  refine ⟨hiff, ?_, ?_⟩
  · intro hnot
    cases hx : parseRecords env records with
    | none => rfl
    | some out => exact absurd (hiff.mp ⟨out, hx⟩) hnot
  · intro out h
    have := parseLoop_claimCount env henv records h
    simpa [claimCount] using this

/-- C14 at `rowsMixed`, whose three rows are well formed. -/
theorem parseRecords_succeeds_iff_witness :
    insertionEnv.Valid ∧
    ((∃ out, parseRecords insertionEnv rowsMixed = some out) ↔ ∀ r ∈ rowsMixed, RowParses r) ∧
    parseRecords insertionEnv rowsMixed = some parsedMixed ∧
    parseRecords insertionEnv (rowsMixed ++ [["A1", "short", "row"]]) = none ∧
    parseRecords insertionEnv (rowsMixed ++ [sampleRow "A1" "4" "13/1/2020" "1.00"]) = none ∧
    parseRecords insertionEnv (rowsMixed ++ [sampleRow "A1" "4" "1/1/2020" "1,00"]) = none :=
  ⟨insertionEnv_valid,
    (parseRecords_succeeds_iff insertionEnv insertionEnv_valid rowsMixed).1,
    by decide, by decide, by decide, by decide⟩

theorem toList_removeAll (old : Char) (str : String) :
    (removeAll old str).toList = str.toList.filter (fun c => c != old) := rfl

/-- C17: a row with at least sixteen fields whose date and amounts parse is built
into a claim with `ChartNumber = r[0]`, `CaseNumber = r[4]`, `ClaimNo = r[5]`,
`InsuranceName = r[11]`, `Facility = r[14]`, `Sheet = r[15]`, `Duplicate = false`,
`DateOfService = parseDate(r[6])`, `InsurancePaid = moneyStringToInt(r[10])` and
`AdjustmentAmount = moneyStringToInt(r[12])`; its two display strings are `r[10]`
and `r[12]` with every `-` removed and every other character kept in place; and
`parseRecords` on that row alone stores that claim under `r[0]`. -/
theorem buildClaim_extracts (env : GoEnv) (henv : env.Valid) (r : List String)
    (hlen : 16 ≤ r.length) (v6 v10 v12 : String) (t : Time) (p a : Int)
    (h6 : r[6]? = some v6) (ht : parseDate v6 = some t)
    (h10 : r[10]? = some v10) (hp : moneyStringToInt v10 = some p)
    (h12 : r[12]? = some v12) (ha : moneyStringToInt v12 = some a) :
    ∃ c, buildClaim r = some c ∧
      r[0]? = some c.ChartNumber ∧ r[4]? = some c.CaseNumber ∧ r[5]? = some c.ClaimNo ∧
      r[11]? = some c.InsuranceName ∧ r[14]? = some c.Facility ∧ r[15]? = some c.Sheet ∧
      c.Duplicate = false ∧ c.DateOfService = t ∧ c.InsurancePaid = p ∧
      c.AdjustmentAmount = a ∧
      c.InsurancePaidString.toList = v10.toList.filter (fun ch => ch != '-') ∧
      c.AdjustmentAmountString.toList = v12.toList.filter (fun ch => ch != '-') ∧
      parseRecords env [r] = some [(c.ChartNumber, [c])] := by
  obtain ⟨c, hc⟩ := (buildClaim_some_iff r).mpr
    ⟨hlen, ⟨v6, t, h6, ht⟩, ⟨v10, p, h10, hp⟩, ⟨v12, a, h12, ha⟩⟩
  obtain ⟨e0, e4, e5, ⟨w6, g6, gt, _⟩, ⟨w10, g10, gp, gs⟩, e11, ⟨w12, g12, ga, gs2⟩, e14, e15,
    edup⟩ := buildClaim_fields hc
  rw [h6] at g6; obtain rfl := Option.some.inj g6
  rw [h10] at g10; obtain rfl := Option.some.inj g10
  rw [h12] at g12; obtain rfl := Option.some.inj g12
  rw [ht] at gt; rw [hp] at gp; rw [ha] at ga
  refine ⟨c, hc, e0, e4, e5, e11, e14, e15, edup, (Option.some.inj gt).symm,
    (Option.some.inj gp).symm, (Option.some.inj ga).symm, ?_, ?_, ?_⟩
  · rw [gs, toList_removeAll]
  · rw [gs2, toList_removeAll]
  · show parseLoop env [] [r] = _
    simp only [parseLoop]
    rw [parseStep_of_buildClaim env [] hc]
    have hs : env.sortSlice dateBefore [c] = [c] :=
      List.perm_singleton.mp (henv.sort_perm dateBefore [c])
    simp [mapIndex, mapAssign, hs]

/-- C17 at a row of chart `B7` that paid `-7.5` with the adjustment `-1.2.3`. -/
theorem buildClaim_extracts_witness :
    insertionEnv.Valid ∧
    16 ≤ ["B7", "", "", "", "case", "2", "12/31/2019", "", "", "", "-7.5", "payer", "-1.2.3", "",
      "clinic", "sheet"].length ∧
    parseDate "12/31/2019" = some { year := 2019, month := 12, day := 31 } ∧
    moneyStringToInt "-7.5" = some 75 ∧ moneyStringToInt "-1.2.3" = some 123 ∧
    buildClaim ["B7", "", "", "", "case", "2", "12/31/2019", "", "", "", "-7.5", "payer",
      "-1.2.3", "", "clinic", "sheet"]
      = some {
          ChartNumber := "B7", CaseNumber := "case", ClaimNo := "2",
          DateOfService := { year := 2019, month := 12, day := 31 },
          DateOfServiceString := "12/31/2019", InsurancePaid := 75,
          InsurancePaidString := "7.5", InsuranceName := "payer", AdjustmentAmount := 123,
          AdjustmentAmountString := "1.2.3", Facility := "clinic", Sheet := "sheet",
          Duplicate := false } ∧
    ∃ c, buildClaim ["B7", "", "", "", "case", "2", "12/31/2019", "", "", "", "-7.5", "payer",
        "-1.2.3", "", "clinic", "sheet"] = some c ∧ c.InsurancePaid = 75 ∧
      c.InsurancePaidString.toList = "-7.5".toList.filter (fun ch => ch != '-') :=
  ⟨insertionEnv_valid, by decide, by decide, by decide, by decide, by decide,
    match buildClaim_extracts insertionEnv insertionEnv_valid
      ["B7", "", "", "", "case", "2", "12/31/2019", "", "", "", "-7.5", "payer", "-1.2.3", "",
        "clinic", "sheet"] (by decide) "12/31/2019" "-7.5" "-1.2.3"
      { year := 2019, month := 12, day := 31 } 75 123 (by decide) (by decide) (by decide)
      (by decide) (by decide) (by decide) with
    | ⟨c, h1, _, _, _, _, _, _, _, _, h2, _, h3, _, _⟩ => ⟨c, h1, h2, h3⟩⟩

/-! ## Amounts -/

theorem moneyStringToInt_eq (str : String) :
    moneyStringToInt str
      = parseInt32 ((str.toList.filter (fun c => c != '.')).filter (fun c => c != '-')) := rfl

theorem foldl_decimalValue (digits : List Char) (n : Nat) :
    digits.foldl (fun n c => n * 10 + digitVal c) n
      = n * 10 ^ digits.length + baseTenValue digits := by
  induction digits generalizing n with
  | nil => simp [baseTenValue]
  | cons c cs ih =>
    rw [List.foldl_cons, ih]
    simp only [baseTenValue, List.length_cons, pow_succ]
    ring

theorem decimalValue_eq_baseTenValue (digits : List Char) :
    decimalValue digits = baseTenValue digits := by
  unfold decimalValue
  rw [foldl_decimalValue]
  simp

theorem isDigit_ne_plus {c : Char} (h : isDigit c = true) : c ≠ '+' := by
  intro e; subst e; exact absurd h (by decide)

theorem isDigit_ne_minus {c : Char} (h : isDigit c = true) : c ≠ '-' := by
  intro e; subst e; exact absurd h (by decide)

theorem isDigit_ne_dot {c : Char} (h : isDigit c = true) : c ≠ '.' := by
  intro e; subst e; exact absurd h (by decide)

/-- `strconv.ParseInt` on a text that does not begin with `-`: the value, when
there is one, is a natural number. -/
theorem parseInt32_no_minus {c : Char} {rest : List Char} (hm : c ≠ '-') :
    parseInt32 (c :: rest)
      = if ((if c = '+' then rest else c :: rest).isEmpty ||
            !(if c = '+' then rest else c :: rest).all isDigit) = true then none
        else if decimalValue (if c = '+' then rest else c :: rest) ≥ 2 ^ 31 then none
        else some (decimalValue (if c = '+' then rest else c :: rest) : Int) := by
  simp only [parseInt32, hm, or_false, decide_False, Bool.not_false, Bool.true_and,
    Bool.false_and, Bool.false_eq_true, ↓reduceIte, decide_eq_true_eq]

theorem parseInt32_digits {l : List Char} (hne : l ≠ []) (hd : ∀ c ∈ l, isDigit c = true)
    (hv : baseTenValue l < 2 ^ 31) : parseInt32 l = some (baseTenValue l : Int) := by
  cases l with
  | nil => exact absurd rfl hne
  | cons c rest =>
    have hc := hd c (List.mem_cons_self _ _)
    rw [parseInt32_no_minus (isDigit_ne_minus hc)]
    simp only [isDigit_ne_plus hc, ↓reduceIte]
    have hall : (c :: rest).all isDigit = true := List.all_eq_true.mpr hd
    rw [decimalValue_eq_baseTenValue]
    have h2 : ¬ baseTenValue (c :: rest) ≥ 2 ^ 31 := by omega
    rw [if_neg (by simp [hall]), if_neg h2]

theorem parseInt32_nonneg {l : List Char} {v : Int} (hm : '-' ∉ l) (h : parseInt32 l = some v) :
    0 ≤ v := by
  cases l with
  | nil => simp [parseInt32] at h
  | cons c rest =>
    have hc : c ≠ '-' := fun e => hm (e ▸ List.mem_cons_self _ _)
    rw [parseInt32_no_minus hc] at h
    generalize (if c = '+' then rest else c :: rest) = digits at h
    split at h
    · exact absurd h (by simp)
    · split at h
      · exact absurd h (by simp)
      · have := Option.some.inj h
        rw [← this]
        exact Int.natCast_nonneg _

theorem toList_minus_append (s : String) : ("-" ++ s).toList = '-' :: s.toList := by
  show ("-" ++ s).data = _
  rw [String.data_append]
  rfl

/-- C15: `moneyStringToInt` discards the sign: where it succeeds on `s`, it
succeeds on `"-" ++ s` with the same value, and the value is never negative. -/
theorem moneyStringToInt_sign (s : String) (v : Int) (h : moneyStringToInt s = some v) :
    moneyStringToInt ("-" ++ s) = some v ∧ 0 ≤ v := by
  constructor
  · rw [moneyStringToInt_eq, toList_minus_append]
    rw [moneyStringToInt_eq] at h
    simpa [List.filter_cons] using h
  · rw [moneyStringToInt_eq] at h
    refine parseInt32_nonneg ?_ h
    intro hmem
    have := (List.mem_filter.mp hmem).2
    simp at this

/-- C15 at `123.45`: both `123.45` and `-123.45` parse to 12345. -/
theorem moneyStringToInt_sign_witness :
    moneyStringToInt "123.45" = some 12345 ∧
    (moneyStringToInt ("-" ++ "123.45") = some 12345 ∧ (0 : Int) ≤ 12345) ∧
    moneyStringToInt "-123.45" = some 12345 :=
  ⟨by decide, moneyStringToInt_sign "123.45" 12345 (by decide), by decide⟩

/-- C16 (as amended): on a text made only of decimal digits, `.` and `-` that has
at least one digit — so on digits with an optional separator and an optional
leading sign — and whose digits denote a number below 2^31, `moneyStringToInt`
succeeds and returns the number that those digits denote in base 10. -/
theorem moneyStringToInt_value (s : String) (hc : ∀ c ∈ s.toList, amountChar c = true)
    (hd : ∃ c ∈ s.toList, isDigit c = true)
    (hv : baseTenValue (s.toList.filter isDigit) < 2 ^ 31) :
    moneyStringToInt s = some (baseTenValue (s.toList.filter isDigit) : Int) := by
  have hf : (s.toList.filter (fun c => c != '.')).filter (fun c => c != '-')
      = s.toList.filter isDigit := by
    rw [List.filter_filter]
    apply List.filter_congr
    intro c hmem
    have h1 := hc c hmem
    by_cases hdig : isDigit c = true
    · simp [hdig, isDigit_ne_dot hdig, isDigit_ne_minus hdig]
    · simp only [amountChar, hdig, Bool.false_or, Bool.or_eq_true, beq_iff_eq] at h1
      rcases h1 with h1 | h1 <;> simp [h1, hdig] <;> decide
  rw [moneyStringToInt_eq, hf]
  apply parseInt32_digits _ _ hv
  · obtain ⟨c, hmem, hdig⟩ := hd
    intro e
    have : c ∈ s.toList.filter isDigit := List.mem_filter.mpr ⟨hmem, hdig⟩
    rw [e] at this
    simp at this
  · intro c hmem
    exact (List.mem_filter.mp hmem).2

/-- C16 (as amended) at `-123.45`. -/
theorem moneyStringToInt_value_witness :
    (∀ c ∈ "-123.45".toList, amountChar c = true) ∧
    (∃ c ∈ "-123.45".toList, isDigit c = true) ∧
    baseTenValue ("-123.45".toList.filter isDigit) < 2 ^ 31 ∧
    moneyStringToInt "-123.45" = some (baseTenValue ("-123.45".toList.filter isDigit) : Int) :=
  ⟨by decide, by decide, by decide,
    moneyStringToInt_value "-123.45" (by decide) (by decide) (by decide)⟩

/-- C16 as stated fails: `21474836.48` is made of digits and one separator, its
digits denote 2147483648 = 2^31, and `moneyStringToInt` panics on it, because
`strconv.ParseInt` is called with bit size 32. -/
theorem moneyStringToInt_value_counterexample :
    (∀ c ∈ "21474836.48".toList, amountChar c = true) ∧
    (∃ c ∈ "21474836.48".toList, isDigit c = true) ∧
    baseTenValue ("21474836.48".toList.filter isDigit) = 2147483648 ∧
    moneyStringToInt "21474836.48" = none ∧
    moneyStringToInt "21474836.47" = some 2147483647 := by
  decide

/-! ## Dates -/

theorem digitVal_le_nine {c : Char} (h : isDigit c = true) : digitVal c ≤ 9 := by
  simp only [isDigit, decide_eq_true_eq] at h
  have h0 : '0'.toNat = 48 := by decide
  have h9 : '9'.toNat = 57 := by decide
  unfold digitVal
  omega

theorem decimalValue_four {y0 y1 y2 y3 : Char} (h0 : isDigit y0 = true) (h1 : isDigit y1 = true)
    (h2 : isDigit y2 = true) (h3 : isDigit y3 = true) : decimalValue [y0, y1, y2, y3] ≤ 9999 := by
  have d0 := digitVal_le_nine h0
  have d1 := digitVal_le_nine h1
  have d2 := digitVal_le_nine h2
  have d3 := digitVal_le_nine h3
  simp only [decimalValue, List.foldl_cons, List.foldl_nil]
  omega

theorem daysIn_le (month year : Nat) : daysIn month year ≤ 31 := by
  unfold daysIn
  split
  · split <;> omega
  · split <;> omega

/-- A date that `time.Parse` returns has a month up to 12, a day up to 31 and a
year of at most four digits. -/
theorem timeParse_bounds {s : List Char} {t : Time} (h : timeParse s = some t) :
    t.month ≤ 12 ∧ t.day ≤ 31 ∧ t.year ≤ 9999 := by
  unfold timeParse at h
  split at h
  · exact absurd h (by simp)
  · rename_i month v1 _
    split at h
    · exact absurd h (by simp)
    · rename_i hmonth
      split at h
      · exact absurd h (by simp)
      · split at h
        · exact absurd h (by simp)
        · rename_i day v3 _
          split at h
          · exact absurd h (by simp)
          · split at h
            · rename_i y0 y1 y2 y3 _
              split at h
              · rename_i hdig
                simp only [Bool.and_eq_true] at hdig
                dsimp only at h
                split at h
                · exact absurd h (by simp)
                · rename_i hday
                  have hy := decimalValue_four hdig.1.1.1 hdig.1.1.2 hdig.1.2 hdig.2
                  have hd := daysIn_le month (decimalValue [y0, y1, y2, y3])
                  have ht := Option.some.inj h
                  rw [← ht]
                  simp only
                  omega
              · exact absurd h (by simp)
            · exact absurd h (by simp)

theorem digitChar_injective : ∀ a < 10, ∀ b < 10, digitChar a = digitChar b → a = b := by
  decide

theorem digitChar_mod (n : Nat) : digitChar n = digitChar (n % 10) := by
  simp [digitChar]

theorem mod_eq_of_digitChar_eq {a b : Nat} (h : digitChar a = digitChar b) :
    a % 10 = b % 10 := by
  rw [digitChar_mod a, digitChar_mod b] at h
  exact digitChar_injective _ (Nat.mod_lt _ (by omega)) _ (Nat.mod_lt _ (by omega)) h

/-- The rendering `MM/DD/YYYY` tells apart any two dates that `time.Parse` can
return. -/
theorem timeFormat_injective {t u : Time} (ht : t.month ≤ 12 ∧ t.day ≤ 31 ∧ t.year ≤ 9999)
    (hu : u.month ≤ 12 ∧ u.day ≤ 31 ∧ u.year ≤ 9999) (h : timeFormat t = timeFormat u) :
    t = u := by
  unfold timeFormat at h
  have hl := congrArg String.data h
  simp only [List.cons.injEq, and_true, true_and] at hl
  obtain ⟨m1, m0, d1, d0, y3, y2, y1, y0⟩ := hl
  have a1 := mod_eq_of_digitChar_eq m1
  have a0 := mod_eq_of_digitChar_eq m0
  have b1 := mod_eq_of_digitChar_eq d1
  have b0 := mod_eq_of_digitChar_eq d0
  have c3 := mod_eq_of_digitChar_eq y3
  have c2 := mod_eq_of_digitChar_eq y2
  have c1 := mod_eq_of_digitChar_eq y1
  have c0 := mod_eq_of_digitChar_eq y0
  cases t with
  | mk ty tm td =>
    cases u with
    | mk uy um ud =>
      simp only at ht hu a1 a0 b1 b0 c3 c2 c1 c0
      simp only [Time.mk.injEq]
      omega

/-- C20: for two raw date strings on which `parseDate` succeeds, the rendered
strings of `formatDateString` are equal if and only if the parsed dates are
equal; and among the claims of a mapping that `parseRecords` returns, two claims
have equal `DateOfServiceString` exactly when they have equal `DateOfService`. -/
theorem formatDateString_eq_iff (a b : String) (ta tb : Time) (ha : parseDate a = some ta)
    (hb : parseDate b = some tb) :
    (formatDateString a = formatDateString b ↔ parseDate a = parseDate b) ∧
    (∀ (env : GoEnv) (records : List (List String)) (out : ChartMap),
      env.Valid → parseRecords env records = some out →
      ∀ k1 l1 c1 k2 l2 c2, mapIndex out k1 = some l1 → c1 ∈ l1 →
        mapIndex out k2 = some l2 → c2 ∈ l2 →
        (c1.DateOfServiceString = c2.DateOfServiceString ↔
          c1.DateOfService = c2.DateOfService)) := by
  constructor
  · unfold formatDateString
    rw [ha, hb]
    simp only [Option.map_some', Option.some.injEq]
    constructor
    · intro h
      exact timeFormat_injective (timeParse_bounds ha) (timeParse_bounds hb) h
    · intro h; rw [h]
  · intro env records out henv hparse k1 l1 c1 k2 l2 c2 h1 hc1 h2 hc2
    have key : ∀ k l c, mapIndex out k = some l → c ∈ l →
        (∃ v, parseDate v = some c.DateOfService) ∧
          c.DateOfServiceString = timeFormat c.DateOfService := by
      intro k l c hk hc
      have hp := parseLoop_perm env henv records hparse k
      rw [hk] at hp
      simp only [Option.getD_some, mapIndex, Option.getD_none, List.nil_append] at hp
      obtain ⟨_, r, _, hr⟩ := mem_rowClaims (hp.mem_iff.mp hc)
      obtain ⟨_, _, _, ⟨v6, _, ht, hs⟩, _⟩ := buildClaim_fields hr
      exact ⟨⟨v6, ht⟩, hs⟩
    obtain ⟨⟨v1, p1⟩, s1⟩ := key k1 l1 c1 h1 hc1
    obtain ⟨⟨v2, p2⟩, s2⟩ := key k2 l2 c2 h2 hc2
    rw [s1, s2]
    constructor
    · intro h
      exact timeFormat_injective (timeParse_bounds p1) (timeParse_bounds p2) h
    · intro h; rw [h]

/-- C20 at `1/2/2020` and `01/02/2020`, one date with the one rendering
`01/02/2020`, and at the two claims of chart `A1` in `parsedMixed`. -/
theorem formatDateString_eq_iff_witness :
    parseDate "1/2/2020" = some { year := 2020, month := 1, day := 2 } ∧
    parseDate "01/02/2020" = some { year := 2020, month := 1, day := 2 } ∧
    formatDateString "1/2/2020" = some "01/02/2020" ∧
    formatDateString "01/02/2020" = some "01/02/2020" ∧
    (formatDateString "1/2/2020" = formatDateString "01/02/2020" ↔
      parseDate "1/2/2020" = parseDate "01/02/2020") ∧
    ((sampleParsed "A1" "3" { year := 2020, month := 1, day := 2 } "01/02/2020" "0.00"
        0).DateOfServiceString
      = (sampleParsed "A1" "1" { year := 2020, month := 1, day := 3 } "01/03/2020" "50.00"
        5000).DateOfServiceString ↔
     (sampleParsed "A1" "3" { year := 2020, month := 1, day := 2 } "01/02/2020" "0.00"
        0).DateOfService
      = (sampleParsed "A1" "1" { year := 2020, month := 1, day := 3 } "01/03/2020" "50.00"
        5000).DateOfService) :=
  ⟨by decide, by decide, by decide, by decide,
    (formatDateString_eq_iff "1/2/2020" "01/02/2020" { year := 2020, month := 1, day := 2 }
      { year := 2020, month := 1, day := 2 } (by decide) (by decide)).1,
    (formatDateString_eq_iff "1/2/2020" "01/02/2020" { year := 2020, month := 1, day := 2 }
      { year := 2020, month := 1, day := 2 } (by decide) (by decide)).2
      insertionEnv rowsMixed parsedMixed insertionEnv_valid (by decide)
      "A1" parsedA1 _ "A1" parsedA1 _ (by decide) (List.mem_cons_self _ _) (by decide)
      (List.mem_cons_of_mem _ (List.mem_cons_self _ _))⟩

/-! ## The filters as operations on mappings -/

/-- Two well-formed association lists that read alike hold the same entries. -/
theorem perm_of_mapIndex_eq {m1 m2 : ChartMap} (h1 : KeysNodup m1) (h2 : KeysNodup m2)
    (h : ∀ k, mapIndex m1 k = mapIndex m2 k) : m1.Perm m2 := by
  rw [List.perm_ext_iff_of_nodup (List.Nodup.of_map _ h1) (List.Nodup.of_map _ h2)]
  intro e
  constructor
  · intro he
    have := mapIndex_of_mem h1 (k := e.1) (v := e.2) he
    rw [h] at this
    exact mem_of_mapIndex this
  · intro he
    have := mapIndex_of_mem h2 (k := e.1) (v := e.2) he
    rw [← h] at this
    exact mem_of_mapIndex this

theorem length_mapAssign_le (m : ChartMap) (k : String) (v : List Claim) :
    (mapAssign m k v).length ≤ m.length + 1 := by
  induction m with
  | nil => simp [mapAssign]
  | cons e rest ih =>
    simp only [mapAssign]
    split
    · simp
    · simp only [List.length_cons]; omega

theorem length_foldl_assign_le (p : List Claim → Bool) (f : String → List Claim → List Claim)
    (l : ChartMap) (acc : ChartMap) :
    (l.foldl (fun acc e => if p e.2 then mapAssign acc e.1 (f e.1 e.2) else acc) acc).length
      ≤ acc.length + l.length := by
  induction l generalizing acc with
  | nil => simp
  | cons e rest ih =>
    rw [List.foldl_cons]
    refine (ih _).trans ?_
    have := length_mapAssign_le acc e.1 (f e.1 e.2)
    simp only [List.length_cons]
    split <;> omega

/-- C18: applying `removeSingleClaimRecords` twice yields the same mapping as
applying it once: the same keys with the same claim lists, whatever orders the
two runs visit their maps in. -/
theorem removeSingleClaimRecords_idempotent (env1 env2 : GoEnv) (h1 : env1.Valid)
    (h2 : env2.Valid) (m : ChartMap) (hm : KeysNodup m) :
    (∀ k, mapIndex (removeSingleClaimRecords env2 (removeSingleClaimRecords env1 m)) k
        = mapIndex (removeSingleClaimRecords env1 m) k) ∧
    (removeSingleClaimRecords env2 (removeSingleClaimRecords env1 m)).Perm
      (removeSingleClaimRecords env1 m) := by
  have hnd := keysNodup_removeSingleClaimRecords env1 m
  have hidx : ∀ k, mapIndex (removeSingleClaimRecords env2 (removeSingleClaimRecords env1 m)) k
      = mapIndex (removeSingleClaimRecords env1 m) k := by
    intro k
    rw [mapIndex_removeSingleClaimRecords env2 h2 _ hnd k]
    rw [mapIndex_removeSingleClaimRecords env1 h1 m hm k]
    cases hx : mapIndex m k with
    | none => rfl
    | some v =>
      simp only
      by_cases hv : v.length > 1
      · simp [hv]
      · simp [hv]
  exact ⟨hidx, perm_of_mapIndex_eq (keysNodup_removeSingleClaimRecords env2 _) hnd hidx⟩

/-- C18 at `sampleMap`, the first run visiting the map forwards and the second
backwards: both leave charts `A` and `C`. -/
theorem removeSingleClaimRecords_idempotent_witness :
    goEnv.mapRange .removeSingle sampleMap = sampleMap ∧
    insertionEnv.mapRange .removeSingle sampleMap = sampleMap.reverse ∧
    removeSingleClaimRecords goEnv sampleMap = [("A", chartA), ("C", chartC)] ∧
    removeSingleClaimRecords insertionEnv (removeSingleClaimRecords insertionEnv sampleMap)
      = [("A", chartA), ("C", chartC)] ∧
    insertionEnv.Valid ∧ KeysNodup sampleMap ∧
    ((∀ k, mapIndex (removeSingleClaimRecords insertionEnv
          (removeSingleClaimRecords insertionEnv sampleMap)) k
        = mapIndex (removeSingleClaimRecords insertionEnv sampleMap) k) ∧
      (removeSingleClaimRecords insertionEnv
          (removeSingleClaimRecords insertionEnv sampleMap)).Perm
        (removeSingleClaimRecords insertionEnv sampleMap)) :=
  ⟨rfl, rfl, by decide, by decide, insertionEnv_valid, by decide,
    removeSingleClaimRecords_idempotent insertionEnv insertionEnv insertionEnv_valid
      insertionEnv_valid sampleMap (by decide)⟩

/-- C19: the output of `removeSingleClaimRecords` has no more charts than its
input, and neither has the output of `removeSumZeroClaimRecords`. -/
theorem filters_shrink (env : GoEnv) (henv : env.Valid) (m : ChartMap) :
    (removeSingleClaimRecords env m).length ≤ m.length ∧
    (removeSumZeroClaimRecords env m).length ≤ m.length := by
  constructor
  · have h := length_foldl_assign_le (fun v => decide (v.length > 1)) (fun _ v => v)
      (env.mapRange .removeSingle m) []
    simp only [decide_eq_true_eq] at h
    have hl := (henv.range_perm .removeSingle m).length_eq
    unfold removeSingleClaimRecords
    simp only [List.length_nil] at h
    omega
  · have h := length_foldl_assign_le (fun v => decide (sumPaid v > 0)) (fun _ v => v)
      (env.mapRange .removeSumZero m) []
    simp only [decide_eq_true_eq] at h
    have hl := (henv.range_perm .removeSumZero m).length_eq
    unfold removeSumZeroClaimRecords
    simp only [List.length_nil] at h
    omega

/-- C19 at `sampleMap`: of its three charts the first filter keeps two and the
second filter keeps two. -/
theorem filters_shrink_witness :
    insertionEnv.Valid ∧ sampleMap.length = 3 ∧
    (removeSingleClaimRecords insertionEnv sampleMap).length = 2 ∧
    (removeSumZeroClaimRecords insertionEnv sampleMap).length = 2 ∧
    ((removeSingleClaimRecords insertionEnv sampleMap).length ≤ sampleMap.length ∧
      (removeSumZeroClaimRecords insertionEnv sampleMap).length ≤ sampleMap.length) :=
  ⟨insertionEnv_valid, by decide, by decide, by decide,
    filters_shrink insertionEnv insertionEnv_valid sampleMap⟩

/-! ## Order of equal dates in `parseRecords` -/

theorem dateBefore_of_dateIs (t : Time) (a b : Claim) (ha : dateIs t a = true)
    (hb : dateIs t b = true) : dateBefore a b = false := by
  simp only [dateIs, decide_eq_true_eq] at ha hb
  simp [dateBefore, Time.Before, ha, hb]

/-- While the chart has at most twelve claims, every insertion of `parseRecords`
leaves the claims of one date in the order of their rows. -/
theorem parseLoop_stable (env : GoEnv) (henv : env.Valid) (hsmall : SmallInsertion env)
    (records : List (List String)) {charts out : ChartMap}
    (h : parseLoop env charts records = some out) (k : String)
    (hlen : ((mapIndex out k).getD []).length ≤ 12) (t : Time) :
    ((mapIndex out k).getD []).filter (dateIs t)
      = ((mapIndex charts k).getD [] ++ rowClaims k records).filter (dateIs t) := by
  induction records generalizing charts with
  | nil =>
    simp only [parseLoop, Option.some.injEq] at h
    subst h
    simp [rowClaims]
  | cons value rest ih =>
    obtain ⟨claim, hb, hrest⟩ := parseLoop_cons_some h
    rw [ih hrest, rowClaims_cons k value rest hb]
    by_cases hk : claim.ChartNumber = k
    · subst hk
      have hp := parseLoop_perm env henv rest hrest claim.ChartNumber
      rw [mapIndex_mapAssign_self] at hp ⊢
      simp only [Option.getD_some] at hp ⊢
      have hl : (env.sortSlice dateBefore
          ((mapIndex charts claim.ChartNumber).getD [] ++ [claim])).length ≤ 12 := by
        have := hp.length_eq
        rw [List.length_append] at this
        omega
      have hl2 : ((mapIndex charts claim.ChartNumber).getD [] ++ [claim]).length ≤ 12 := by
        rw [← (henv.sort_perm dateBefore _).length_eq]; exact hl
      rw [if_pos trivial, List.filter_append, hsmall dateBefore _ hl2, insertionSort_func_whole,
        filter_insertionSortList dateBefore (dateIs t) (dateBefore_of_dateIs t)]
      rw [List.filter_append, List.filter_append, List.append_assoc, ← List.filter_append]
      rfl
    · rw [mapIndex_mapAssign_ne _ _ hk, if_neg hk]

/-- C12 (as amended): when the runtime sorts slices of at most twelve elements by
insertion sort, as `sort.Slice` does, then in every chart of the result of
`parseRecords` that has at most twelve claims, the claims with the same
`DateOfService` appear in the same relative order as their rows appear in the
input; for charts with more claims the order of equal dates is left open. -/
theorem parseRecords_stable_small (env : GoEnv) (henv : env.Valid) (hsmall : SmallInsertion env)
    (records : List (List String)) (out : ChartMap) (h : parseRecords env records = some out)
    (k : String) (claims : List Claim) (hk : mapIndex out k = some claims)
    (hlen : claims.length ≤ 12) (t : Time) :
    claims.filter (dateIs t) = (rowClaims k records).filter (dateIs t) := by
  have := parseLoop_stable env henv hsmall records h k (by rw [hk]; exact hlen) t
  rw [hk] at this
  simpa [mapIndex] using this

/-- C12 (as amended) at `rowsA1`, two rows of one chart and one date. -/
theorem parseRecords_stable_small_witness :
    insertionEnv.Valid ∧ SmallInsertion insertionEnv ∧
    parseRecords insertionEnv rowsA1
      = some [("A1", [claimA1 "1" "50.00" 5000 false, claimA1 "2" "0.00" 0 false])] ∧
    rowClaims "A1" rowsA1 = [claimA1 "1" "50.00" 5000 false, claimA1 "2" "0.00" 0 false] ∧
    [claimA1 "1" "50.00" 5000 false, claimA1 "2" "0.00" 0 false].filter
        (dateIs { year := 2020, month := 1, day := 2 })
      = (rowClaims "A1" rowsA1).filter (dateIs { year := 2020, month := 1, day := 2 }) :=
  ⟨insertionEnv_valid, insertionEnv_smallInsertion, by decide, by decide,
    parseRecords_stable_small insertionEnv insertionEnv_valid insertionEnv_smallInsertion rowsA1
      [("A1", [claimA1 "1" "50.00" 5000 false, claimA1 "2" "0.00" 0 false])] (by decide) "A1"
      [claimA1 "1" "50.00" 5000 false, claimA1 "2" "0.00" 0 false] (by decide) (by decide)
      { year := 2020, month := 1, day := 2 }⟩

/-- C12 as stated fails: chart `K` receives twelve rows dated 1/3/2020 and then
one row dated 1/2/2020.  Up to the twelfth row the chart is in row order; the
thirteenth insertion sorts thirteen claims, and `sort.Slice` takes claim 6 as
its pivot and swaps it to the front, then swaps claim 1 to the end.  The result
is a permutation of the claims in ascending order of date, as the contract
demands, but the twelve claims of 1/3/2020 stand in the order 6, 2, 3, 4, 5, 0,
7, 8, 9, 10, 11, 1 and not in the order of their rows. -/
theorem parseRecords_stable_counterexample :
    ((parseRecords goEnv (rowsK.take 12)).map
        (fun m => m.map (fun e => (e.1, e.2.map (fun c => c.ClaimNo)))))
      = some [("K", ["0", "1", "2", "3", "4", "5", "6", "7", "8", "9", "10", "11"])] ∧
    parseRecords goEnv rowsK = some [("K", parsedK)] ∧
    parsedK.map (fun c => c.ClaimNo)
      = ["12", "6", "2", "3", "4", "5", "0", "7", "8", "9", "10", "11", "1"] ∧
    (rowClaims "K" rowsK).map (fun c => c.ClaimNo)
      = ["0", "1", "2", "3", "4", "5", "6", "7", "8", "9", "10", "11", "12"] ∧
    parsedK.Perm (rowClaims "K" rowsK) ∧
    parsedK.Pairwise (fun a b => b.DateOfService.Before a.DateOfService = false) ∧
    parsedK.filter (dateIs { year := 2020, month := 1, day := 3 })
      ≠ (rowClaims "K" rowsK).filter (dateIs { year := 2020, month := 1, day := 3 }) := by
  decide

end CfgAudit
